import Mathlib

/-!
# Union-find (`unionFind.h`): embedding and verified properties

The C++ class `UnionFind<T, D>` keeps two arrays of length `n`:
`elements` (one `DisjointNode<T>` per universe element) and `sets`
(one `Set<T, D>` per set identifier).  The arrays are embedded as lists, a
`DisjointNode<T>*` that points into `elements` is embedded as the index of the
node it points to (`none` for `NULL`), and every memory access is checked:
an access outside an array is the fault `outOfBounds`.  The recursion of
`aux_getUpTreeRoot` is embedded with a call budget equal to the number of
nodes; exhausting it is the fault `nonTermination`.  `int` arithmetic that can
overflow (`size1 + size2`) wraps modulo `2 ^ 32`.

The universe size `N` is an `int` in the source, so the theorems about reachable states
take `N ≤ INT_MAX` as a hypothesis on the natural number `N`; the embedding takes
`N ≥ 0` (a negative `N` makes the first `new[]` throw, like the outcome `noElements`).
`T` and `D` are the template parameters; `T()` and `D()` are their `default` values.

The constructor catches `std::bad_alloc` with an empty handler and returns normally, so
either `new[]` can fail and leave a half-built object behind.  `Alloc` says how the two
allocations ended; an array pointer that was never assigned is embedded as the empty
list, so that every access through it is the fault `outOfBounds`.  `Reachable` covers the
objects of all three outcomes, `ReachableFrom` those of one outcome.
-/

set_option linter.dupNamespace false

namespace UF

/-! ## Constants and result codes -/

def EMPTY : Int := 0
def ILLEGAL_VALUE : Int := -1
def INITIAL : Int := 1

/-- Largest value of a 32-bit `int`. -/
def INT_MAX : Int := 2 ^ 31 - 1

/-- Two's complement wrap-around of a mathematical integer into a 32-bit `int`. -/
def wrapInt (x : Int) : Int := (x + 2 ^ 31) % 2 ^ 32 - 2 ^ 31

inductive UnionResult where
  | Success
  | Fail
  | MemoryError
  deriving DecidableEq, Repr

/-- Ways in which an execution of the C++ code can have no defined result. -/
inductive Fault where
  | outOfBounds
  | nonTermination
  deriving DecidableEq, Repr

/-! ## Data model -/

/-- Embedding of `struct DisjointNode<T>`; `parent` is the index in `elements` of the node
pointed to, `none` for `NULL`. -/
structure DisjointNode (T : Type) where
  data : T
  set : Int
  parent : Option Nat
  deriving DecidableEq, Repr

/-- Embedding of `struct Set<T, D>`. -/
structure Set (D : Type) where
  size : Int
  department : D
  deriving DecidableEq, Repr

/-- Embedding of `class UnionFind<T, D>`. -/
structure UnionFind (T D : Type) where
  n : Int
  elements : List (DisjointNode T)
  sets : List (Set D)
  deriving DecidableEq, Repr

variable {T D : Type}

/-- The constructor `DisjointNode<T>::DisjointNode(int set1)`. -/
def DisjointNode.ofSet [Inhabited T] (set1 : Int) : DisjointNode T :=
  { data := default, set := set1, parent := none }

/-- The constructor `Set<T, D>::Set()`. -/
def Set.new [Inhabited D] : Set D :=
  { size := EMPTY, department := default }

/-- The constructor `DisjointNode<T>::DisjointNode()`. -/
def DisjointNode.new [Inhabited T] : DisjointNode T :=
  { data := default, set := ILLEGAL_VALUE, parent := none }

/-- How the two `new[]` expressions of the constructor end: both succeed, or the first
(`elements`) throws `std::bad_alloc`, or the first succeeds and the second (`sets`)
throws. -/
inductive Alloc where
  | done
  | noElements
  | noSets
  deriving DecidableEq, Repr

/-- The constructor `UnionFind<T, D>::UnionFind(int N)` for `N ≥ 0`.  `n` is set to `N`
first.  When both arrays are allocated the loop sets `elements[i] = DisjointNode<T>(i)`
and `sets[i].size = 1`.  When `new DisjointNode<T>[N]` throws, the empty `catch` is
entered with neither pointer assigned.  When `new Set<T, D>[N]` throws, `elements` holds
`N` default-constructed nodes, the loop has not run and `sets` is not assigned. -/
def UnionFind.UnionFind [Inhabited T] [Inhabited D] (N : Nat) (a : Alloc) : UnionFind T D :=
  match a with
  | .done =>
    { n := N
      elements := (List.range N).map fun (i : Nat) => DisjointNode.ofSet (i : Int)
      sets := (List.range N).map fun (_ : Nat) => { (Set.new : Set D) with size := 1 } }
  | .noElements => { n := N, elements := [], sets := [] }
  | .noSets =>
    { n := N
      elements := (List.range N).map fun (_ : Nat) => (DisjointNode.new : DisjointNode T)
      sets := [] }

/-! ## Memory accesses -/

/-- Read of `*node` for a node pointer into `elements`. -/
def loadNode (s : UnionFind T D) (node : Nat) : Except Fault (DisjointNode T) :=
  match s.elements[node]? with
  | some nd => .ok nd
  | none => .error .outOfBounds

/-- Read of `*(sets + k)`. -/
def loadSet (s : UnionFind T D) (k : Int) : Except Fault (Set D) :=
  if 0 ≤ k then
    match s.sets[k.toNat]? with
    | some st => .ok st
    | none => .error .outOfBounds
  else .error .outOfBounds

/-- Write `(sets + k)->size = v`. -/
def storeSetSize (s : UnionFind T D) (k : Int) (v : Int) : Except Fault (UnionFind T D) :=
  match loadSet s k with
  | .ok st => .ok { s with sets := s.sets.set k.toNat { st with size := v } }
  | .error e => .error e

/-- Write `node->set = v`. -/
def storeNodeSet (s : UnionFind T D) (node : Nat) (v : Int) : Except Fault (UnionFind T D) :=
  match loadNode s node with
  | .ok nd => .ok { s with elements := s.elements.set node { nd with set := v } }
  | .error e => .error e

/-- Write `node->parent = p`. -/
def storeNodeParent (s : UnionFind T D) (node : Nat) (p : Nat) :
    Except Fault (UnionFind T D) :=
  match loadNode s node with
  | .ok nd => .ok { s with elements := s.elements.set node { nd with parent := some p } }
  | .error e => .error e

/-! ## Operations -/

/-- The recursion `UnionFind::aux_getUpTreeRoot(node)`; `fuel` bounds the number of
recursive calls. -/
def aux_getUpTreeRoot (s : UnionFind T D) : Nat → Nat → Except Fault Nat
  | fuel, node =>
    match loadNode s node with
    | .error e => .error e
    | .ok nd =>
      match nd.parent with
      | none => .ok node
      | some p =>
        match fuel with
        | 0 => .error .nonTermination
        | fuel1 + 1 => aux_getUpTreeRoot s fuel1 p

/-- The method `UnionFind::getUpTreeRoot(ele)`: `node = elements + ele`, then the ascent.
A chain of parent links without a cycle has fewer links than there are nodes, so as many
recursive calls as there are nodes are allowed. -/
def getUpTreeRoot (s : UnionFind T D) (ele : Int) : Except Fault Nat :=
  if 0 ≤ ele then aux_getUpTreeRoot s s.elements.length ele.toNat
  else .error .outOfBounds

/-- The method `UnionFind::find(element)`. -/
def find (s : UnionFind T D) (element : Int) : Except Fault Int :=
  match getUpTreeRoot s element with
  | .error e => .error e
  | .ok wantedNode =>
    match loadNode s wantedNode with
    | .error e => .error e
    | .ok nd => .ok nd.set

/-- The method `UnionFind::unionSets(ele1, ele2)`, statement by statement; the result is
the returned code together with the state the call leaves. -/
def unionSets (s : UnionFind T D) (ele1 ele2 : Int) :
    Except Fault (UnionResult × UnionFind T D) :=
  if ele1 ≥ s.n ∨ ele1 < 0 ∨ ele2 ≥ s.n ∨ ele2 < 0 then .ok (.Fail, s)
  else do
    let f1 ← find s ele1
    let f2 ← find s ele2
    if f1 = f2 then .ok (.Fail, s)
    else do
      let root1 ← getUpTreeRoot s ele1
      let root2 ← getUpTreeRoot s ele2
      let size1 := (← loadSet s (← loadNode s root1).set).size
      let size2 := (← loadSet s (← loadNode s root2).set).size
      let s ← storeSetSize s (← loadNode s root1).set (wrapInt (size1 + size2))
      let s ← storeSetSize s (← loadNode s root2).set EMPTY
      let s ← storeNodeSet s root1 (← find s ele1)
      let s ← storeNodeSet s root2 (← find s ele1)
      if size1 = EMPTY ∧ size2 = EMPTY then .ok (.Success, s)
      else if size1 ≤ size2 then do
        let s ← storeNodeParent s root1 root2
        .ok (.Success, s)
      else do
        let s ← storeNodeParent s root2 root1
        .ok (.Success, s)

/-- A sequence of `unionSets` calls: the returned codes in call order and the final
state. -/
def runOps (s : UnionFind T D) : List (Int × Int) →
    Except Fault (List UnionResult × UnionFind T D)
  | [] => .ok ([], s)
  | (a, b) :: rest =>
    match unionSets s a b with
    | .error e => .error e
    | .ok (r, s1) =>
      match runOps s1 rest with
      | .error e => .error e
      | .ok (rs, s2) => .ok (r :: rs, s2)

/-- Whether the parent chain of element `i` ends at node `r`. -/
def endsAt (s : UnionFind T D) (i r : Nat) : Bool :=
  match getUpTreeRoot s (i : Int) with
  | .ok r1 => r1 == r
  | .error _ => false

/-- Number of elements whose parent chain ends at node `r`. -/
def chainCount (s : UnionFind T D) (r : Nat) : Nat :=
  (List.range s.elements.length).countP fun i => endsAt s i r

/-- Whether `find` gives element `i` the identifier `k`. -/
def findIs (s : UnionFind T D) (i : Nat) (k : Int) : Bool :=
  match find s (i : Int) with
  | .ok k1 => k1 == k
  | .error _ => false

/-- Number of elements to which `find` gives the identifier `k`. -/
def partitionCount (s : UnionFind T D) (k : Int) : Nat :=
  (List.range s.elements.length).countP fun i => findIs s i k

/-- Number of set identifiers whose `SetRecord` has a positive size. -/
def liveCount (s : UnionFind T D) : Nat :=
  s.sets.countP fun st => decide (0 < st.size)

/-- Sum of the sizes of all `SetRecord`s. -/
def totalSize (s : UnionFind T D) : Int :=
  (s.sets.map Set.size).sum

/-- States that a `UnionFind(N)` whose allocations ended as `a` reaches by `unionSets`
calls. -/
def ReachableFrom [Inhabited T] [Inhabited D] (a : Alloc) (N : Nat) (s : UnionFind T D) :
    Prop :=
  ∃ ops rs, runOps (UnionFind.UnionFind N a : UnionFind T D) ops = .ok (rs, s)

/-- States that a freshly constructed `UnionFind(N)` reaches by `unionSets` calls,
however its allocations ended. -/
def Reachable [Inhabited T] [Inhabited D] (N : Nat) (s : UnionFind T D) : Prop :=
  ∃ a ops rs, runOps (UnionFind.UnionFind N a : UnionFind T D) ops = .ok (rs, s)

/-- Node `i` reaches the parentless node `r` by following `d` parent links. -/
inductive Ascends (s : UnionFind T D) : Nat → Nat → Nat → Prop where
  | root {i : Nat} {nd : DisjointNode T} :
      s.elements[i]? = some nd → nd.parent = none → Ascends s i i 0
  | step {i p r d : Nat} {nd : DisjointNode T} :
      s.elements[i]? = some nd → nd.parent = some p → Ascends s p r d →
      Ascends s i r (d + 1)

/-! ## Definitions used by the proofs -/

/-- Number of indices below `N` that `rt` sends to `r`. -/
def cnt (N : Nat) (rt : Nat → Nat) (r : Nat) : Nat :=
  (List.range N).countP fun j => decide (rt j = r)

/-- Representation invariant of a state with `N` elements; `rt i` is the root of the
up-tree of element `i` and `dp i` the number of parent links from `i` to it. -/
structure Inv (N : Nat) (s : UnionFind T D) (rt dp : Nat → Nat) : Prop where
  bound : (N : Int) ≤ INT_MAX
  n_eq : s.n = (N : Int)
  len_elements : s.elements.length = N
  len_sets : s.sets.length = N
  ascends : ∀ i, i < N → Ascends s i (rt i) (dp i)
  depth : ∀ i, i < N → 2 ^ dp i ≤ cnt N rt (rt i)
  root_set : ∀ (r : Nat) (nd : DisjointNode T), s.elements[r]? = some nd → nd.parent = none →
    ∃ (k : Nat) (st : Set D),
      nd.set = (k : Int) ∧ s.sets[k]? = some st ∧ st.size = (cnt N rt r : Int)
  inj : ∀ (r1 r2 : Nat) (n1 n2 : DisjointNode T),
    s.elements[r1]? = some n1 → s.elements[r2]? = some n2 →
    n1.parent = none → n2.parent = none → n1.set = n2.set → r1 = r2
  sum : totalSize s = (N : Int)

/-- State left by a successful `unionSets` whose arguments have the distinct roots `r1`
and `r2` (nodes `n1`, `n2`), with identifiers `k1`, `k2` and records `st1`, `st2`. -/
def linkState (s : UnionFind T D) (r1 r2 : Nat) (n1 n2 : DisjointNode T) (k1 k2 : Nat)
    (st1 st2 : Set D) : UnionFind T D :=
  { s with
    sets := (s.sets.set k1 { st1 with size := st1.size + st2.size }).set k2
      { st2 with size := 0 }
    elements :=
      if st1.size ≤ st2.size then
        (s.elements.set r2 { n2 with set := (k1 : Int) }).set r1 { n1 with parent := some r2 }
      else
        s.elements.set r2 { n2 with set := (k1 : Int), parent := some r1 } }

/-- What linking root `c` under root `p` with surviving identifier `k1` does to the node
at index `x`. -/
def relink (c p k1 x : Nat) (nd : DisjointNode T) : DisjointNode T :=
  { nd with
    set := if x = c ∨ x = p then (k1 : Int) else nd.set
    parent := if x = c then some p else nd.parent }

/-- Root function after linking `c` under `p`. -/
def linkRt (rt : Nat → Nat) (c p : Nat) : Nat → Nat :=
  fun x => if rt x = c then p else rt x

/-- Depth function after linking `c` under `p`. -/
def linkDp (rt dp : Nat → Nat) (c : Nat) : Nat → Nat :=
  fun x => if rt x = c then dp x + 1 else dp x

/-! ## Concrete states used as examples -/

/-- The fresh three-element structure `UnionFind(3)`. -/
def fresh3 : UnionFind Unit Unit := UnionFind.UnionFind 3 .done

/-- The three-element structure after `unionSets(0, 1)`. -/
def merged3 : UnionFind Unit Unit :=
  { n := 3
    elements := [⟨(), 0, some 1⟩, ⟨(), 0, none⟩, ⟨(), 2, none⟩]
    sets := [⟨2, ()⟩, ⟨0, ()⟩, ⟨1, ()⟩] }

/-- The five-element structure after `unionSets(0, 1)`, `unionSets(0, 2)` and
`unionSets(3, 4)`: a partition of size 3 and one of size 2. -/
def split5 : UnionFind Unit Unit :=
  { n := 5
    elements := [⟨(), 0, some 1⟩, ⟨(), 0, none⟩, ⟨(), 0, some 1⟩, ⟨(), 3, some 4⟩, ⟨(), 3, none⟩]
    sets := [⟨3, ()⟩, ⟨0, ()⟩, ⟨0, ()⟩, ⟨2, ()⟩, ⟨0, ()⟩] }

/-- The state `split5` after `unionSets(0, 3)`. -/
def joined5 : UnionFind Unit Unit :=
  { n := 5
    elements :=
      [⟨(), 0, some 1⟩, ⟨(), 0, none⟩, ⟨(), 0, some 1⟩, ⟨(), 3, some 4⟩, ⟨(), 0, some 1⟩]
    sets := [⟨5, ()⟩, ⟨0, ()⟩, ⟨0, ()⟩, ⟨0, ()⟩, ⟨0, ()⟩] }

/-- The state `split5` after `unionSets(3, 0)`: node 4, the root of the first argument,
hangs under node 1, and the merged partition keeps the identifier 3. -/
def joined5rev : UnionFind Unit Unit :=
  { n := 5
    elements :=
      [⟨(), 0, some 1⟩, ⟨(), 3, none⟩, ⟨(), 0, some 1⟩, ⟨(), 3, some 4⟩, ⟨(), 3, some 1⟩]
    sets := [⟨0, ()⟩, ⟨0, ()⟩, ⟨0, ()⟩, ⟨5, ()⟩, ⟨0, ()⟩] }

/-- The pairs `(a, b)` of the calls in `ops` whose two indices are both in `[0, N)`. -/
def unionPairs (N : Nat) (ops : List (Int × Int)) (x y : Int) : Prop :=
  ∃ q ∈ ops, (0 ≤ q.1 ∧ q.1 < (N : Int)) ∧ (0 ≤ q.2 ∧ q.2 < (N : Int)) ∧ x = q.1 ∧ y = q.2

/-- Being in one up-tree according to `rt`, or being a pair of `ops`. -/
def genRel (N : Nat) (rt : Nat → Nat) (ops : List (Int × Int)) (x y : Int) : Prop :=
  (∃ a b : Nat, x = (a : Int) ∧ y = (b : Int) ∧ a < N ∧ b < N ∧ rt a = rt b) ∨
    unionPairs N ops x y

/-- The five-element structure after `unionSets(0, 1)`, `unionSets(2, 3)` and
`unionSets(1, 2)`. -/
def scenarioA : UnionFind Unit Unit :=
  { n := 5
    elements :=
      [⟨(), 0, some 1⟩, ⟨(), 0, some 3⟩, ⟨(), 2, some 3⟩, ⟨(), 0, none⟩, ⟨(), 4, none⟩]
    sets := [⟨4, ()⟩, ⟨0, ()⟩, ⟨0, ()⟩, ⟨0, ()⟩, ⟨1, ()⟩] }

/-- The fresh two-element structure `UnionFind(2)`. -/
def fresh2 : UnionFind Unit Unit := UnionFind.UnionFind 2 .done

/-- The five-element structure after `unionSets(0, 1)` and `unionSets(2, 3)`; element 4
is alone in its partition. -/
def scenarioB : UnionFind Unit Unit :=
  { n := 5
    elements :=
      [⟨(), 0, some 1⟩, ⟨(), 0, none⟩, ⟨(), 2, some 3⟩, ⟨(), 2, none⟩, ⟨(), 4, none⟩]
    sets := [⟨2, ()⟩, ⟨0, ()⟩, ⟨2, ()⟩, ⟨0, ()⟩, ⟨1, ()⟩] }

/-- The node reached from `node` by following `d` parent links, when there are that many
links to follow. -/
def ancestor (s : UnionFind T D) : Nat → Nat → Option Nat
  | 0, node => if node < s.elements.length then some node else none
  | d + 1, node =>
    match s.elements[node]? with
    | none => none
    | some nd =>
      match nd.parent with
      | none => none
      | some p => ancestor s d p

/-- The `parent` field of the node at index `x`, when `x` is inside `elements`. -/
def parentAt (s : UnionFind T D) (x : Nat) : Option (Option Nat) :=
  (s.elements[x]?).map DisjointNode.parent

/-- The state `scenarioB` after `unionSets(1, 2)` and `unionSets(4, 0)`: one partition
with the identifier 4, whose root is node 3. -/
def scenarioC : UnionFind Unit Unit :=
  { n := 5
    elements :=
      [⟨(), 0, some 1⟩, ⟨(), 0, some 3⟩, ⟨(), 2, some 3⟩, ⟨(), 4, none⟩, ⟨(), 4, some 3⟩]
    sets := [⟨0, ()⟩, ⟨0, ()⟩, ⟨0, ()⟩, ⟨0, ()⟩, ⟨5, ()⟩] }

/-- The fresh two-element structure `UnionFind(2)` over natural-number payloads. -/
def labelled2 : UnionFind Nat Nat := UnionFind.UnionFind 2 .done

/-- The state `s` after the caller has stored the payload `fd i` in `elements[i].data` and
the payload `fp k` in `sets[k].department` (both arrays are public members of the class);
nothing else differs from `s`. -/
def withPayloads (s : UnionFind T D) (fd : Nat → T) (fp : Nat → D) : UnionFind T D :=
  { s with
    elements := s.elements.mapIdx fun (i : Nat) (nd : DisjointNode T) => { nd with data := fd i }
    sets := s.sets.mapIdx fun (k : Nat) (st : Set D) => { st with department := fp k } }

/-- The structure `labelled2` with data `10`, `11` and departments `20`, `21` stored by
the caller. -/
def tagged2 : UnionFind Nat Nat :=
  withPayloads labelled2 (fun i => 10 + i) (fun k => 20 + k)

/-- The state `tagged2` after `unionSets(1, 0)`. -/
def tagged2joined : UnionFind Nat Nat :=
  { n := 2
    elements := [⟨10, 1, none⟩, ⟨11, 1, some 0⟩]
    sets := [⟨0, 20⟩, ⟨2, 21⟩] }

/-- A half-built object, as the constructor leaves it when one of its two `new[]`
throws: `n` is `N`, `sets` was never assigned, and `elements` either was never assigned
or holds `N` nodes, each with a null parent and `set == ILLEGAL_VALUE`. -/
structure HalfBuilt (N : Nat) (s : UnionFind T D) : Prop where
  n_eq : s.n = (N : Int)
  sets_nil : s.sets = []
  nodes : ∀ (x : Nat) (nd : DisjointNode T), s.elements[x]? = some nd →
    nd.set = ILLEGAL_VALUE ∧ nd.parent = none
  len : s.elements.length = N ∨ s.elements.length = 0

/-- The object `UnionFind(2)` whose second allocation (`sets`) failed. -/
def halfBuilt2 : UnionFind Unit Unit := UnionFind.UnionFind 2 .noSets

/-- The object `UnionFind(INT_MAX)` whose first allocation (`elements`) failed. -/
def unbuiltMax : UnionFind Unit Unit := UnionFind.UnionFind 2147483647 .noElements

/-! ## Memory access lemmas -/

theorem loadNode_of_get {s : UnionFind T D} {i : Nat} {nd : DisjointNode T}
    (h : s.elements[i]? = some nd) : loadNode s i = .ok nd := by
  simp [loadNode, h]

theorem loadNode_ok_iff {s : UnionFind T D} {i : Nat} {nd : DisjointNode T} :
    loadNode s i = .ok nd ↔ s.elements[i]? = some nd := by
  unfold loadNode
  cases h : s.elements[i]? <;> simp

theorem loadSet_of_get {s : UnionFind T D} {k : Nat} {st : Set D}
    (h : s.sets[k]? = some st) : loadSet s (k : Int) = .ok st := by
  simp [loadSet, h]

theorem storeSetSize_of_get {s : UnionFind T D} {k : Nat} {st : Set D} (v : Int)
    (h : s.sets[k]? = some st) :
    storeSetSize s (k : Int) v =
      .ok { s with sets := s.sets.set k { st with size := v } } := by
  simp [storeSetSize, loadSet_of_get h]

theorem storeNodeSet_of_get {s : UnionFind T D} {i : Nat} {nd : DisjointNode T} (v : Int)
    (h : s.elements[i]? = some nd) :
    storeNodeSet s i v =
      .ok { s with elements := s.elements.set i { nd with set := v } } := by
  simp [storeNodeSet, loadNode_of_get h]

theorem storeNodeParent_of_get {s : UnionFind T D} {i : Nat} {nd : DisjointNode T} (p : Nat)
    (h : s.elements[i]? = some nd) :
    storeNodeParent s i p =
      .ok { s with elements := s.elements.set i { nd with parent := some p } } := by
  simp [storeNodeParent, loadNode_of_get h]

theorem set_same_of_get {α : Type} {l : List α} {i : Nat} {a : α} (h : l[i]? = some a) :
    l.set i a = l := by
  apply List.ext_getElem?
  intro j
  rw [List.getElem?_set]
  by_cases hij : i = j
  · subst hij
    have hlt : i < l.length := by
      rcases List.getElem?_eq_some.1 h with ⟨hlt, _⟩
      exact hlt
    simp [hlt, h]
  · simp [hij]

/-! ## The ascent -/

theorem Ascends.lt {s : UnionFind T D} {i r d : Nat} (h : Ascends s i r d) :
    i < s.elements.length := by
  cases h with
  | root h1 _ => exact (List.getElem?_eq_some.1 h1).1
  | step h1 _ _ => exact (List.getElem?_eq_some.1 h1).1

theorem Ascends.isRoot {s : UnionFind T D} {i r d : Nat} (h : Ascends s i r d) :
    ∃ nd, s.elements[r]? = some nd ∧ nd.parent = none := by
  induction h with
  | root h1 h2 => exact ⟨_, h1, h2⟩
  | step _ _ _ ih => exact ih

theorem Ascends.det {s : UnionFind T D} {i r d : Nat} (h : Ascends s i r d) :
    ∀ {r1 d1 : Nat}, Ascends s i r1 d1 → r1 = r ∧ d1 = d := by
  induction h with
  | root h1 h2 =>
    intro r1 d1 h
    cases h with
    | root _ _ => exact ⟨rfl, rfl⟩
    | step g1 g2 _ =>
      rw [h1] at g1
      cases g1
      rw [h2] at g2
      cases g2
  | step h1 h2 _ ih =>
    intro r1 d1 h
    cases h with
    | root g1 g2 =>
      rw [h1] at g1
      cases g1
      rw [h2] at g2
      cases g2
    | step g1 g2 g3 =>
      rw [h1] at g1
      cases g1
      rw [h2] at g2
      cases g2
      obtain ⟨e1, e2⟩ := ih g3
      exact ⟨e1, by rw [e2]⟩

theorem Ascends.of_root {s : UnionFind T D} {r : Nat} {nd : DisjointNode T}
    (h1 : s.elements[r]? = some nd) (h2 : nd.parent = none) {r1 d1 : Nat}
    (h : Ascends s r r1 d1) : r1 = r ∧ d1 = 0 :=
  (Ascends.root h1 h2).det h

/-- With a budget of at least the number of links, the recursion returns the root. -/
theorem aux_getUpTreeRoot_of_ascends {s : UnionFind T D} {i r d : Nat}
    (h : Ascends s i r d) : ∀ fuel, d ≤ fuel → aux_getUpTreeRoot s fuel i = .ok r := by
  induction h with
  | root h1 h2 =>
    intro fuel _
    unfold aux_getUpTreeRoot
    simp only [loadNode_of_get h1, h2]
  | step h1 h2 _ ih =>
    intro fuel hf
    obtain ⟨f, rfl⟩ : ∃ f, fuel = f + 1 := ⟨fuel - 1, by omega⟩
    unfold aux_getUpTreeRoot
    simp only [loadNode_of_get h1, h2]
    exact ih f (by omega)

/-- A returned node is the end of the parent chain, reached within the budget. -/
theorem ascends_of_aux_getUpTreeRoot {s : UnionFind T D} :
    ∀ (fuel i r : Nat), aux_getUpTreeRoot s fuel i = .ok r →
      ∃ d, d ≤ fuel ∧ Ascends s i r d := by
  intro fuel
  induction fuel with
  | zero =>
    intro i r h
    unfold aux_getUpTreeRoot at h
    cases hl : loadNode s i with
    | error e => simp [hl] at h
    | ok nd =>
      have hg := loadNode_ok_iff.1 hl
      cases hp : nd.parent with
      | none =>
        simp only [hl, hp, Except.ok.injEq] at h
        subst h
        exact ⟨0, le_refl 0, Ascends.root hg hp⟩
      | some p => simp [hl, hp] at h
  | succ f ih =>
    intro i r h
    unfold aux_getUpTreeRoot at h
    cases hl : loadNode s i with
    | error e => simp [hl] at h
    | ok nd =>
      have hg := loadNode_ok_iff.1 hl
      cases hp : nd.parent with
      | none =>
        simp only [hl, hp, Except.ok.injEq] at h
        subst h
        exact ⟨0, by omega, Ascends.root hg hp⟩
      | some p =>
        simp only [hl, hp] at h
        obtain ⟨d, hd, ha⟩ := ih p r h
        exact ⟨d + 1, by omega, Ascends.step hg hp ha⟩

/-- A larger budget does not change a returned root. -/
theorem aux_getUpTreeRoot_mono {s : UnionFind T D} {fuel fuel1 i r : Nat}
    (h : aux_getUpTreeRoot s fuel i = .ok r) (hf : fuel ≤ fuel1) :
    aux_getUpTreeRoot s fuel1 i = .ok r := by
  obtain ⟨d, hd, ha⟩ := ascends_of_aux_getUpTreeRoot fuel i r h
  exact aux_getUpTreeRoot_of_ascends ha fuel1 (by omega)

/-! ## The representation invariant -/

theorem cnt_le (N : Nat) (rt : Nat → Nat) (r : Nat) : cnt N rt r ≤ N := by
  unfold cnt
  exact (List.countP_le_length _).trans (by simp)

theorem cnt_pos {N : Nat} {rt : Nat → Nat} {r : Nat} (h1 : r < N) (h2 : rt r = r) :
    0 < cnt N rt r := by
  unfold cnt
  rw [List.countP_pos_iff]
  exact ⟨r, List.mem_range.2 h1, by simp [h2]⟩

theorem countP_or_of_disjoint {α : Type} (p q : α → Bool) (l : List α)
    (h : ∀ a ∈ l, ¬ (p a = true ∧ q a = true)) :
    l.countP (fun a => p a || q a) = l.countP p + l.countP q := by
  induction l with
  | nil => simp
  | cons a l ih =>
    have ha := h a (List.mem_cons_self a l)
    have ih1 := ih fun b hb => h b (List.mem_cons_of_mem a hb)
    rw [List.countP_cons, List.countP_cons, List.countP_cons, ih1]
    cases hp : p a <;> cases hq : q a <;> simp_all <;> omega

theorem cnt_add_le {N : Nat} {rt : Nat → Nat} {r1 r2 : Nat} (h : r1 ≠ r2) :
    cnt N rt r1 + cnt N rt r2 ≤ N := by
  unfold cnt
  rw [← countP_or_of_disjoint]
  · exact (List.countP_le_length _).trans (by simp)
  · intro a _ hh
    simp only [decide_eq_true_eq] at hh
    exact h (hh.1.symm.trans hh.2)

namespace Inv

variable {N : Nat} {s : UnionFind T D} {rt dp : Nat → Nat}

theorem lt_of_get (I : Inv N s rt dp) {i : Nat} {nd : DisjointNode T}
    (h : s.elements[i]? = some nd) : i < N := by
  have := (List.getElem?_eq_some.1 h).1
  rw [I.len_elements] at this
  exact this

theorem root_fix (I : Inv N s rt dp) {r : Nat} {nd : DisjointNode T}
    (h1 : s.elements[r]? = some nd) (h2 : nd.parent = none) : rt r = r ∧ dp r = 0 :=
  Ascends.of_root h1 h2 (I.ascends r (I.lt_of_get h1))

theorem rt_root (I : Inv N s rt dp) {i : Nat} (h : i < N) :
    ∃ nd, s.elements[rt i]? = some nd ∧ nd.parent = none :=
  (I.ascends i h).isRoot

theorem rt_lt (I : Inv N s rt dp) {i : Nat} (h : i < N) : rt i < N := by
  obtain ⟨nd, h1, _⟩ := I.rt_root h
  exact I.lt_of_get h1

theorem rt_rt (I : Inv N s rt dp) {i : Nat} (h : i < N) : rt (rt i) = rt i := by
  obtain ⟨nd, h1, h2⟩ := I.rt_root h
  exact (I.root_fix h1 h2).1

theorem dp_lt (I : Inv N s rt dp) {i : Nat} (h : i < N) : dp i < N :=
  calc dp i < 2 ^ dp i := Nat.lt_two_pow _
    _ ≤ cnt N rt (rt i) := I.depth i h
    _ ≤ N := cnt_le _ _ _

theorem getUpTreeRoot_nat (I : Inv N s rt dp) {i : Nat} (h : i < N) :
    getUpTreeRoot s (i : Int) = .ok (rt i) := by
  unfold getUpTreeRoot
  simp only [Int.natCast_nonneg, if_true, Int.toNat_natCast]
  exact aux_getUpTreeRoot_of_ascends (I.ascends i h) _
    (by rw [I.len_elements]; exact Nat.le_of_lt (I.dp_lt h))

theorem getUpTreeRoot_int (I : Inv N s rt dp) {e : Int} (h0 : 0 ≤ e) (h1 : e < (N : Int)) :
    getUpTreeRoot s e = .ok (rt e.toNat) := by
  have h := I.getUpTreeRoot_nat (i := e.toNat) ((Int.toNat_lt h0).2 h1)
  rwa [Int.toNat_of_nonneg h0] at h

/-- The facts `find` rests on: the root of `i`, its identifier and its `SetRecord`. -/
theorem find_nat (I : Inv N s rt dp) {i : Nat} (h : i < N) :
    ∃ (nd : DisjointNode T) (k : Nat) (st : Set D),
      s.elements[rt i]? = some nd ∧ nd.parent = none ∧ nd.set = (k : Int) ∧
      k < N ∧ s.sets[k]? = some st ∧ st.size = (cnt N rt (rt i) : Int) ∧
      find s (i : Int) = .ok (k : Int) := by
  obtain ⟨nd, h1, h2⟩ := I.rt_root h
  obtain ⟨k, st, h3, h4, h5⟩ := I.root_set _ _ h1 h2
  refine ⟨nd, k, st, h1, h2, h3, ?_, h4, h5, ?_⟩
  · have := (List.getElem?_eq_some.1 h4).1
    rwa [I.len_sets] at this
  · simp [find, I.getUpTreeRoot_nat h, loadNode_of_get h1, h3]

theorem getUpTreeRoot_ok_iff (I : Inv N s rt dp) {i r : Nat} (h : i < N) :
    getUpTreeRoot s (i : Int) = .ok r ↔ rt i = r := by
  rw [I.getUpTreeRoot_nat h]
  constructor
  · intro h1; cases h1; rfl
  · intro h1; rw [h1]

theorem chainCount_eq (I : Inv N s rt dp) (r : Nat) : chainCount s r = cnt N rt r := by
  unfold chainCount cnt
  rw [I.len_elements]
  apply List.countP_congr
  intro i hi
  have hi1 := List.mem_range.1 hi
  simp [endsAt, I.getUpTreeRoot_nat hi1]

end Inv

/-! ## The constructed state -/

section Construct

variable [Inhabited T] [Inhabited D]

theorem construct_elements_get {N i : Nat} (h : i < N) :
    (UnionFind.UnionFind N .done : UnionFind T D).elements[i]? =
      some (DisjointNode.ofSet (i : Int)) := by
  simp only [UnionFind.UnionFind, List.getElem?_map, List.getElem?_range h, Option.map_some']

theorem construct_sets_get {N i : Nat} (h : i < N) :
    (UnionFind.UnionFind N .done : UnionFind T D).sets[i]? =
      some { (Set.new : Set D) with size := 1 } := by
  simp only [UnionFind.UnionFind, List.getElem?_map, List.getElem?_range h, Option.map_some']

theorem construct_elements_length (N : Nat) :
    (UnionFind.UnionFind N .done : UnionFind T D).elements.length = N := by
  simp only [UnionFind.UnionFind, List.length_map, List.length_range]

theorem construct_sets_length (N : Nat) :
    (UnionFind.UnionFind N .done : UnionFind T D).sets.length = N := by
  simp only [UnionFind.UnionFind, List.length_map, List.length_range]

theorem cnt_id {N r : Nat} (h : r < N) : cnt N id r = 1 := by
  unfold cnt
  have h1 : (List.range N).countP (fun j => decide (id j = r)) = (List.range N).count r := by
    unfold List.count
    apply List.countP_congr
    intro x _
    simp
  rw [h1]
  exact List.count_eq_one_of_mem (List.nodup_range N) (List.mem_range.2 h)

theorem sum_map_const_one (N : Nat) (l : List Nat) (h : l.length = N) :
    ((l.map fun _ => ({ (Set.new : Set D) with size := 1 } : Set D)).map Set.size).sum
      = (N : Int) := by
  subst h
  induction l with
  | nil => simp
  | cons a l ih =>
    simp only [List.map_cons, List.sum_cons, List.length_cons] at ih ⊢
    rw [ih]
    push_cast
    ring

theorem inv_construct {N : Nat} (hN : (N : Int) ≤ INT_MAX) :
    Inv N (UnionFind.UnionFind N .done : UnionFind T D) id (fun _ => 0) where
  bound := hN
  n_eq := rfl
  len_elements := construct_elements_length N
  len_sets := construct_sets_length N
  ascends := fun i hi => Ascends.root (construct_elements_get hi) rfl
  depth := fun i hi => by
    rw [show id i = i from rfl, cnt_id hi]
    simp
  root_set := by
    intro r nd h1 _
    have hr : r < N := by
      have := (List.getElem?_eq_some.1 h1).1
      rwa [construct_elements_length] at this
    rw [construct_elements_get hr] at h1
    cases h1
    exact ⟨r, _, rfl, construct_sets_get hr, by rw [cnt_id hr]; rfl⟩
  inj := by
    intro r1 r2 n1 n2 h1 h2 _ _ h
    have hr1 : r1 < N := by
      have := (List.getElem?_eq_some.1 h1).1
      rwa [construct_elements_length] at this
    have hr2 : r2 < N := by
      have := (List.getElem?_eq_some.1 h2).1
      rwa [construct_elements_length] at this
    rw [construct_elements_get hr1] at h1
    rw [construct_elements_get hr2] at h2
    cases h1
    cases h2
    simpa [DisjointNode.ofSet] using h
  sum := by
    unfold totalSize UnionFind.UnionFind
    exact sum_map_const_one N _ (List.length_range N)

end Construct

/-! ## One `unionSets` call -/

theorem wrapInt_of_bounds {x : Int} (h0 : 0 ≤ x) (h1 : x ≤ INT_MAX) : wrapInt x = x := by
  unfold wrapInt
  unfold INT_MAX at h1
  omega

theorem unionSets_out_of_range (s : UnionFind T D) {e1 e2 : Int}
    (h : e1 ≥ s.n ∨ e1 < 0 ∨ e2 ≥ s.n ∨ e2 < 0) : unionSets s e1 e2 = .ok (.Fail, s) := by
  unfold unionSets
  rw [if_pos h]

theorem find_congr_elements (s1 s2 : UnionFind T D) (h : s1.elements = s2.elements)
    (e : Int) : find s1 e = find s2 e := by
  have h1 : ∀ fuel i, aux_getUpTreeRoot s1 fuel i = aux_getUpTreeRoot s2 fuel i := by
    intro fuel
    induction fuel with
    | zero =>
      intro i
      unfold aux_getUpTreeRoot
      simp only [loadNode, h]
    | succ f ih =>
      intro i
      unfold aux_getUpTreeRoot
      simp only [loadNode, h, ih]
  simp only [find, getUpTreeRoot, loadNode, h, h1]

theorem loadNode_mk {n : Int} {es : List (DisjointNode T)} {ss : List (Set D)} {i : Nat}
    {nd : DisjointNode T} (h : es[i]? = some nd) :
    loadNode (UnionFind.mk n es ss) i = .ok nd :=
  loadNode_of_get h

theorem storeSetSize_mk {n : Int} {es : List (DisjointNode T)} {ss : List (Set D)} {k : Nat}
    {st : Set D} (v : Int) (h : ss[k]? = some st) :
    storeSetSize (UnionFind.mk n es ss) (k : Int) v =
      .ok (UnionFind.mk n es (ss.set k { st with size := v })) :=
  storeSetSize_of_get v h

theorem storeNodeSet_mk {n : Int} {es : List (DisjointNode T)} {ss : List (Set D)} {i : Nat}
    {nd : DisjointNode T} (v : Int) (h : es[i]? = some nd) :
    storeNodeSet (UnionFind.mk n es ss) i v =
      .ok (UnionFind.mk n (es.set i { nd with set := v }) ss) :=
  storeNodeSet_of_get v h

theorem storeNodeParent_mk {n : Int} {es : List (DisjointNode T)} {ss : List (Set D)}
    {i : Nat} {nd : DisjointNode T} (p : Nat) (h : es[i]? = some nd) :
    storeNodeParent (UnionFind.mk n es ss) i p =
      .ok (UnionFind.mk n (es.set i { nd with parent := some p }) ss) :=
  storeNodeParent_of_get p h

theorem find_mk_elements (s : UnionFind T D) (n : Int) (ss : List (Set D)) (e : Int) :
    find (UnionFind.mk n s.elements ss) e = find s e :=
  find_congr_elements (UnionFind.mk n s.elements ss) s rfl e

namespace Inv

variable {N : Nat} {s : UnionFind T D} {rt dp : Nat → Nat}

theorem unionSets_same (I : Inv N s rt dp) {i j : Nat} (hi : i < N) (hj : j < N)
    (h : rt i = rt j) : unionSets s (i : Int) (j : Int) = .ok (.Fail, s) := by
  obtain ⟨n1, k1, _, a1, _, a3, _, _, _, f1⟩ := I.find_nat hi
  obtain ⟨n2, k2, _, b1, _, b3, _, _, _, f2⟩ := I.find_nat hj
  have hk : (k1 : Int) = (k2 : Int) := by
    rw [h, b1] at a1
    cases a1
    rw [← a3, ← b3]
  unfold unionSets
  have hg : ¬ ((i : Int) ≥ s.n ∨ (i : Int) < 0 ∨ (j : Int) ≥ s.n ∨ (j : Int) < 0) := by
    rw [I.n_eq]
    omega
  rw [if_neg hg, f1, f2]
  simp [bind, Except.bind, hk]

theorem unionSets_merge (I : Inv N s rt dp) {i j : Nat} (hi : i < N) (hj : j < N)
    (h : rt i ≠ rt j) :
    ∃ (n1 n2 : DisjointNode T) (k1 k2 : Nat) (st1 st2 : Set D),
      s.elements[rt i]? = some n1 ∧ n1.parent = none ∧ n1.set = (k1 : Int) ∧
      s.elements[rt j]? = some n2 ∧ n2.parent = none ∧ n2.set = (k2 : Int) ∧
      s.sets[k1]? = some st1 ∧ st1.size = (cnt N rt (rt i) : Int) ∧
      s.sets[k2]? = some st2 ∧ st2.size = (cnt N rt (rt j) : Int) ∧
      k1 ≠ k2 ∧ find s (i : Int) = .ok (k1 : Int) ∧ find s (j : Int) = .ok (k2 : Int) ∧
      unionSets s (i : Int) (j : Int) =
        .ok (.Success, linkState s (rt i) (rt j) n1 n2 k1 k2 st1 st2) := by
  obtain ⟨n1, k1, st1, a1, a2, a3, a4, a5, a6, f1⟩ := I.find_nat hi
  obtain ⟨n2, k2, st2, b1, b2, b3, b4, b5, b6, f2⟩ := I.find_nat hj
  have hk : k1 ≠ k2 := by
    intro hk
    apply h
    apply I.inj _ _ _ _ a1 b1 a2 b2
    rw [a3, b3, hk]
  have hk1 : (k1 : Int) ≠ (k2 : Int) := by omega
  refine ⟨n1, n2, k1, k2, st1, st2, a1, a2, a3, b1, b2, b3, a5, a6, b5, b6, hk, f1, f2, ?_⟩
  have hg : ¬ ((i : Int) ≥ s.n ∨ (i : Int) < 0 ∨ (j : Int) ≥ s.n ∨ (j : Int) < 0) := by
    rw [I.n_eq]
    omega
  have hr12 : rt i ≠ rt j := h
  have hsum : cnt N rt (rt i) + cnt N rt (rt j) ≤ N := cnt_add_le h
  have hb := I.bound
  have hw : wrapInt (st1.size + st2.size) = st1.size + st2.size :=
    wrapInt_of_bounds (by rw [a6, b6]; omega) (by rw [a6, b6]; omega)
  have hpos1 : 0 < st1.size := by
    rw [a6]
    exact_mod_cast cnt_pos (I.rt_lt hi) (I.rt_rt hi)
  have hne : ¬ (st1.size = EMPTY ∧ st2.size = EMPTY) := by
    unfold EMPTY
    omega
  unfold unionSets
  rw [if_neg hg, f1, f2]
  simp only [bind, Except.bind, hk1, if_false, I.getUpTreeRoot_nat hi, I.getUpTreeRoot_nat hj,
    loadNode_of_get a1, loadNode_of_get b1, a3, b3, loadSet_of_get a5, loadSet_of_get b5,
    storeSetSize_of_get _ a5, hw]
  have c5 : (s.sets.set k1 { st1 with size := st1.size + st2.size })[k2]? = some st2 := by
    rw [List.getElem?_set_ne hk]
    exact b5
  have e1 : s.elements.set (rt i) { n1 with set := (k1 : Int) } = s.elements := by
    have : ({ n1 with set := (k1 : Int) } : DisjointNode T) = n1 := by
      rw [← a3]
    rw [this]
    exact set_same_of_get a1
  have d1 : (s.elements.set (rt j) { n2 with set := (k1 : Int) })[rt i]? = some n1 := by
    rw [List.getElem?_set_ne (Ne.symm hr12)]
    exact a1
  have d2 : (s.elements.set (rt j) { n2 with set := (k1 : Int) })[rt j]? =
      some { n2 with set := (k1 : Int) } :=
    List.getElem?_set_self (List.getElem?_eq_some.1 b1).1
  simp only [loadNode_mk b1, b3, storeSetSize_mk _ c5, find_mk_elements, f1,
    storeNodeSet_mk _ a1, e1, storeNodeSet_mk _ b1, if_neg hne]
  unfold linkState
  by_cases hle : st1.size ≤ st2.size
  · simp only [if_pos hle, storeNodeParent_mk _ d1, EMPTY]
  · simp only [if_neg hle, storeNodeParent_mk _ d2, List.set_set, EMPTY]

end Inv

/-! ## Linking one root under another -/

theorem sum_map_set (l : List (Set D)) :
    ∀ (i : Nat) (a b : Set D), l[i]? = some b →
      ((l.set i a).map Set.size).sum = (l.map Set.size).sum - b.size + a.size := by
  induction l with
  | nil => intro i a b h; simp at h
  | cons x l ih =>
    intro i a b h
    cases i with
    | zero =>
      simp only [List.getElem?_cons_zero, Option.some.injEq] at h
      subst h
      simp only [List.set_cons_zero, List.map_cons, List.sum_cons]
      ring
    | succ i =>
      simp only [List.getElem?_cons_succ] at h
      simp only [List.set_cons_succ, List.map_cons, List.sum_cons, ih i a b h]
      ring

theorem countP_set (q : Set D → Bool) (l : List (Set D)) :
    ∀ (i : Nat) (a b : Set D), l[i]? = some b →
      (l.set i a).countP q + (if q b then 1 else 0) = l.countP q + (if q a then 1 else 0) := by
  induction l with
  | nil => intro i a b h; simp at h
  | cons x l ih =>
    intro i a b h
    cases i with
    | zero =>
      simp only [List.getElem?_cons_zero, Option.some.injEq] at h
      subst h
      simp only [List.set_cons_zero, List.countP_cons]
      omega
    | succ i =>
      simp only [List.getElem?_cons_succ] at h
      have := ih i a b h
      simp only [List.set_cons_succ, List.countP_cons]
      omega

section Link

variable {s s1 : UnionFind T D} {c p : Nat} {nc np : DisjointNode T} {k1 : Nat}

/-- The parent chains that do not end at the attached root are untouched. -/
theorem Ascends.link_other
    (hc : s.elements[c]? = some nc) (hcr : nc.parent = none)
    (hE : ∀ x : Nat, s1.elements[x]? = (s.elements[x]?).map (relink c p k1 x))
    {x r d : Nat} (h : Ascends s x r d) (hr : r ≠ c) : Ascends s1 x r d := by
  induction h with
  | root h1 h2 =>
    refine Ascends.root (by rw [hE, h1]; rfl) ?_
    simp only [relink, if_neg hr]
    exact h2
  | @step x q r d nd h1 h2 _ ih =>
    have hx : x ≠ c := by
      intro hx
      subst hx
      rw [hc] at h1
      cases h1
      rw [hcr] at h2
      cases h2
    refine Ascends.step (by rw [hE, h1]; rfl) ?_ (ih hr)
    simp only [relink, if_neg hx]
    exact h2

/-- The parent chains that ended at the attached root go one link further. -/
theorem Ascends.link_child
    (hc : s.elements[c]? = some nc) (hcr : nc.parent = none)
    (hp : s.elements[p]? = some np) (hpr : np.parent = none) (hcp : c ≠ p)
    (hE : ∀ x : Nat, s1.elements[x]? = (s.elements[x]?).map (relink c p k1 x))
    {x r d : Nat} (h : Ascends s x r d) (hr : r = c) : Ascends s1 x p (d + 1) := by
  induction h with
  | @root x nd h1 h2 =>
    have hp1 : Ascends s1 p p 0 :=
      Ascends.link_other hc hcr hE (Ascends.root hp hpr) (Ne.symm hcp)
    refine Ascends.step (by rw [hE, h1]; rfl) ?_ hp1
    simp only [relink, if_pos hr]
  | @step x q r d nd h1 h2 _ ih =>
    have hx : x ≠ c := by
      intro hx
      subst hx
      rw [hc] at h1
      cases h1
      rw [hcr] at h2
      cases h2
    refine Ascends.step (by rw [hE, h1]; rfl) ?_ (ih hr)
    simp only [relink, if_neg hx]
    exact h2

end Link

theorem cnt_link_parent {N : Nat} {rt : Nat → Nat} {c p : Nat} (hcp : c ≠ p) :
    cnt N (fun x => if rt x = c then p else rt x) p = cnt N rt c + cnt N rt p := by
  unfold cnt
  rw [← countP_or_of_disjoint]
  · apply List.countP_congr
    intro x _
    by_cases h : rt x = c
    · simp [h]
    · simp [h]
  · intro a _ hh
    simp only [decide_eq_true_eq] at hh
    exact hcp (hh.1.symm.trans hh.2)

theorem cnt_link_other {N : Nat} {rt : Nat → Nat} {c p r : Nat} (hc : r ≠ c) (hp : r ≠ p) :
    cnt N (fun x => if rt x = c then p else rt x) r = cnt N rt r := by
  unfold cnt
  apply List.countP_congr
  intro x _
  by_cases h : rt x = c
  · simp only [h, if_true, decide_eq_true_eq]
    constructor
    · intro h1; exact absurd h1.symm hp
    · intro h1; exact absurd h1.symm hc
  · simp [h]

theorem get_of_relink {s s1 : UnionFind T D} {c p k1 : Nat}
    (hE : ∀ x : Nat, s1.elements[x]? = (s.elements[x]?).map (relink c p k1 x))
    {x : Nat} {nd1 : DisjointNode T} (h : s1.elements[x]? = some nd1) :
    ∃ nd, s.elements[x]? = some nd ∧ nd1 = relink c p k1 x nd := by
  rw [hE] at h
  cases hs : s.elements[x]? with
  | none => rw [hs] at h; cases h
  | some nd =>
    rw [hs] at h
    simp only [Option.map_some', Option.some.injEq] at h
    exact ⟨nd, rfl, h.symm⟩

theorem root_of_relink_root {c p k1 x : Nat} {nd : DisjointNode T}
    (h : (relink c p k1 x nd).parent = none) : x ≠ c ∧ nd.parent = none := by
  unfold relink at h
  by_cases hx : x = c
  · simp [hx] at h
  · simp only [if_neg hx] at h
    exact ⟨hx, h⟩

/-- Linking a root `c` under another root `p` that has at least as many elements, giving
the merged partition the identifier `k1` of one of them and retiring the other
identifier `k2`, keeps the representation invariant. -/
theorem Inv.link {N : Nat} {s s1 : UnionFind T D} {rt dp : Nat → Nat} (I : Inv N s rt dp)
    {c p k1 k2 : Nat} {nc np : DisjointNode T} {st1 st2 : Set D}
    (hc : s.elements[c]? = some nc) (hcr : nc.parent = none)
    (hp : s.elements[p]? = some np) (hpr : np.parent = none)
    (hcp : c ≠ p) (hle : cnt N rt c ≤ cnt N rt p)
    (hk : (nc.set = (k1 : Int) ∧ np.set = (k2 : Int)) ∨
      (nc.set = (k2 : Int) ∧ np.set = (k1 : Int)))
    (hk12 : k1 ≠ k2)
    (h1 : s.sets[k1]? = some st1) (h2 : s.sets[k2]? = some st2)
    (hn : s1.n = s.n) (hlen : s1.elements.length = s.elements.length)
    (hE : ∀ x : Nat, s1.elements[x]? = (s.elements[x]?).map (relink c p k1 x))
    (hS : s1.sets = (s.sets.set k1 { st1 with size := st1.size + st2.size }).set k2
      { st2 with size := 0 }) :
    Inv N s1 (fun x => if rt x = c then p else rt x)
      (fun x => if rt x = c then dp x + 1 else dp x) := by
  have hcN : c < N := I.lt_of_get hc
  have hpN : p < N := I.lt_of_get hp
  have hsz : st1.size + st2.size = ((cnt N rt c + cnt N rt p : Nat) : Int) := by
    obtain ⟨kc, sc, c1, c2, c3⟩ := I.root_set c nc hc hcr
    obtain ⟨kp, sp, p1, p2, p3⟩ := I.root_set p np hp hpr
    rcases hk with ⟨e1, e2⟩ | ⟨e1, e2⟩
    · have hkc : kc = k1 := by rw [e1] at c1; exact_mod_cast c1.symm
      have hkp : kp = k2 := by rw [e2] at p1; exact_mod_cast p1.symm
      subst hkc hkp
      rw [h1] at c2
      rw [h2] at p2
      cases c2
      cases p2
      rw [c3, p3]
      push_cast
      ring
    · have hkc : kc = k2 := by rw [e1] at c1; exact_mod_cast c1.symm
      have hkp : kp = k1 := by rw [e2] at p1; exact_mod_cast p1.symm
      subst hkc hkp
      rw [h2] at c2
      rw [h1] at p2
      cases c2
      cases p2
      rw [c3, p3]
      push_cast
      ring
  have hk1get : s1.sets[k1]? = some { st1 with size := st1.size + st2.size } := by
    rw [hS, List.getElem?_set_ne (Ne.symm hk12)]
    exact List.getElem?_set_self (List.getElem?_eq_some.1 h1).1
  have hother : ∀ k : Nat, k ≠ k1 → k ≠ k2 → s1.sets[k]? = s.sets[k]? := by
    intro k e1 e2
    rw [hS, List.getElem?_set_ne (Ne.symm e2), List.getElem?_set_ne (Ne.symm e1)]
  -- a root other than `c` and `p` has an identifier other than `k1` and `k2`
  have hfresh : ∀ (r : Nat) (nd : DisjointNode T), s.elements[r]? = some nd →
      nd.parent = none → r ≠ c → r ≠ p → nd.set ≠ (k1 : Int) ∧ nd.set ≠ (k2 : Int) := by
    intro r nd g1 g2 rc rp
    constructor
    · intro e
      rcases hk with ⟨e1, _⟩ | ⟨_, e2⟩
      · exact rc (I.inj r c nd nc g1 hc g2 hcr (e.trans e1.symm))
      · exact rp (I.inj r p nd np g1 hp g2 hpr (e.trans e2.symm))
    · intro e
      rcases hk with ⟨_, e2⟩ | ⟨e1, _⟩
      · exact rp (I.inj r p nd np g1 hp g2 hpr (e.trans e2.symm))
      · exact rc (I.inj r c nd nc g1 hc g2 hcr (e.trans e1.symm))
  refine
    { bound := I.bound
      n_eq := hn.trans I.n_eq
      len_elements := hlen.trans I.len_elements
      len_sets := by rw [hS, List.length_set, List.length_set]; exact I.len_sets
      ascends := ?_
      depth := ?_
      root_set := ?_
      inj := ?_
      sum := ?_ }
  · intro i hi
    by_cases h : rt i = c
    · simp only [if_pos h]
      exact Ascends.link_child hc hcr hp hpr hcp hE (I.ascends i hi) h
    · simp only [if_neg h]
      exact Ascends.link_other hc hcr hE (I.ascends i hi) h
  · intro i hi
    have hd := I.depth i hi
    by_cases h : rt i = c
    · simp only [if_pos h]
      rw [cnt_link_parent hcp, pow_succ]
      rw [h] at hd
      omega
    · simp only [if_neg h]
      by_cases h3 : rt i = p
      · rw [h3, cnt_link_parent hcp]
        rw [h3] at hd
        omega
      · rw [cnt_link_other h h3]
        exact hd
  · intro r nd1 g1 g2
    obtain ⟨nd, g3, rfl⟩ := get_of_relink hE g1
    obtain ⟨rc, g4⟩ := root_of_relink_root g2
    by_cases rp : r = p
    · refine ⟨k1, _, ?_, hk1get, ?_⟩
      · simp [relink, rp]
      · rw [rp, cnt_link_parent hcp]
        exact hsz
    · obtain ⟨k, st, q1, q2, q3⟩ := I.root_set r nd g3 g4
      obtain ⟨f1, f2⟩ := hfresh r nd g3 g4 rc rp
      have e1 : k ≠ k1 := by
        intro e; apply f1; rw [q1, e]
      have e2 : k ≠ k2 := by
        intro e; apply f2; rw [q1, e]
      refine ⟨k, st, ?_, ?_, ?_⟩
      · simp [relink, rc, rp, q1]
      · rw [hother k e1 e2]
        exact q2
      · rw [cnt_link_other rc rp]
        exact q3
  · intro r1 r2 m1 m2 g1 g2 p1 p2 e
    obtain ⟨n1, a1, rfl⟩ := get_of_relink hE g1
    obtain ⟨n2, b1, rfl⟩ := get_of_relink hE g2
    obtain ⟨c1, a2⟩ := root_of_relink_root p1
    obtain ⟨c2, b2⟩ := root_of_relink_root p2
    by_cases q1 : r1 = p
    · by_cases q2 : r2 = p
      · rw [q1, q2]
      · exfalso
        simp only [relink, if_neg c2, q1, q2, or_true, or_false, if_true, if_false] at e
        exact (hfresh r2 n2 b1 b2 c2 q2).1 e.symm
    · by_cases q2 : r2 = p
      · exfalso
        simp only [relink, if_neg c1, q1, q2, or_true, or_false, if_true, if_false] at e
        exact (hfresh r1 n1 a1 a2 c1 q1).1 e
      · simp only [relink, c1, c2, q1, q2, or_false, if_false] at e
        exact I.inj r1 r2 n1 n2 a1 b1 a2 b2 e
  · have h2a : (s.sets.set k1 { st1 with size := st1.size + st2.size })[k2]? = some st2 := by
      rw [List.getElem?_set_ne hk12]
      exact h2
    unfold totalSize
    rw [hS, sum_map_set _ _ _ _ h2a, sum_map_set _ _ _ _ h1]
    have := I.sum
    unfold totalSize at this
    rw [← this]
    simp only
    ring

/-! ## The state after a successful call -/

section LinkState

variable {s : UnionFind T D} {r1 r2 k1 k2 : Nat} {n1 n2 : DisjointNode T} {st1 st2 : Set D}

theorem relink_id {c p k1 x : Nat} (nd : DisjointNode T) (hc : x ≠ c) (hp : x ≠ p) :
    relink c p k1 x nd = nd := by
  simp [relink, hc, hp]

theorem linkState_elements_length (s : UnionFind T D) (r1 r2 : Nat) (n1 n2 : DisjointNode T)
    (k1 k2 : Nat) (st1 st2 : Set D) :
    (linkState s r1 r2 n1 n2 k1 k2 st1 st2).elements.length = s.elements.length := by
  unfold linkState
  by_cases hle : st1.size ≤ st2.size
  · simp only [if_pos hle, List.length_set]
  · simp only [if_neg hle, List.length_set]

theorem linkState_elements_get (a1 : s.elements[r1]? = some n1) (a3 : n1.set = (k1 : Int))
    (b1 : s.elements[r2]? = some n2) (h12 : r1 ≠ r2) (x : Nat) :
    (linkState s r1 r2 n1 n2 k1 k2 st1 st2).elements[x]? =
      (s.elements[x]?).map
        (relink (if st1.size ≤ st2.size then r1 else r2)
          (if st1.size ≤ st2.size then r2 else r1) k1 x) := by
  have l1 := (List.getElem?_eq_some.1 a1).1
  have l2 := (List.getElem?_eq_some.1 b1).1
  unfold linkState
  by_cases hle : st1.size ≤ st2.size
  · simp only [if_pos hle]
    by_cases x1 : x = r1
    · subst x1
      rw [List.getElem?_set_self (by rw [List.length_set]; exact l1), a1]
      simp [relink, a3]
    · rw [List.getElem?_set_ne (Ne.symm x1)]
      by_cases x2 : x = r2
      · subst x2
        rw [List.getElem?_set_self l2, b1]
        simp [relink, x1]
      · rw [List.getElem?_set_ne (Ne.symm x2)]
        cases hx : s.elements[x]? with
        | none => rfl
        | some nd => simp only [Option.map_some', relink_id nd x1 x2]
  · simp only [if_neg hle]
    by_cases x2 : x = r2
    · subst x2
      rw [List.getElem?_set_self l2, b1]
      simp [relink]
    · rw [List.getElem?_set_ne (Ne.symm x2)]
      by_cases x1 : x = r1
      · subst x1
        rw [a1]
        simp only [Option.map_some', relink, if_neg x2, or_true, if_true]
        rw [← a3]
      · cases hx : s.elements[x]? with
        | none => rfl
        | some nd => simp only [Option.map_some', relink_id nd x2 x1]

end LinkState

/-- All that a successful `unionSets (i, j)` does, in a state satisfying the invariant. -/
theorem Inv.unionSets_success {N : Nat} {s : UnionFind T D} {rt dp : Nat → Nat}
    (I : Inv N s rt dp) {i j : Nat} (hi : i < N) (hj : j < N) (h : rt i ≠ rt j) :
    ∃ (n1 n2 : DisjointNode T) (k1 k2 : Nat) (st1 st2 : Set D) (c p : Nat) (s1 : UnionFind T D),
      s.elements[rt i]? = some n1 ∧ n1.parent = none ∧ n1.set = (k1 : Int) ∧
      s.elements[rt j]? = some n2 ∧ n2.parent = none ∧ n2.set = (k2 : Int) ∧
      s.sets[k1]? = some st1 ∧ st1.size = (cnt N rt (rt i) : Int) ∧
      s.sets[k2]? = some st2 ∧ st2.size = (cnt N rt (rt j) : Int) ∧
      k1 ≠ k2 ∧ find s (i : Int) = .ok (k1 : Int) ∧ find s (j : Int) = .ok (k2 : Int) ∧
      unionSets s (i : Int) (j : Int) = .ok (.Success, s1) ∧
      s1 = linkState s (rt i) (rt j) n1 n2 k1 k2 st1 st2 ∧
      c = (if st1.size ≤ st2.size then rt i else rt j) ∧
      p = (if st1.size ≤ st2.size then rt j else rt i) ∧
      (∀ x : Nat, s1.elements[x]? = (s.elements[x]?).map (relink c p k1 x)) ∧
      Inv N s1 (linkRt rt c p) (linkDp rt dp c) := by
  obtain ⟨n1, n2, k1, k2, st1, st2, a1, a2, a3, b1, b2, b3, a5, a6, b5, b6, hk, f1, f2, hu⟩ :=
    I.unionSets_merge hi hj h
  refine ⟨n1, n2, k1, k2, st1, st2, _, _, _, a1, a2, a3, b1, b2, b3, a5, a6, b5, b6, hk, f1, f2,
    hu, rfl, rfl, rfl, linkState_elements_get a1 a3 b1 h, ?_⟩
  have hE : ∀ x : Nat, (linkState s (rt i) (rt j) n1 n2 k1 k2 st1 st2).elements[x]? =
      (s.elements[x]?).map
        (relink (if st1.size ≤ st2.size then rt i else rt j)
          (if st1.size ≤ st2.size then rt j else rt i) k1 x) :=
    linkState_elements_get a1 a3 b1 h
  have hlen := linkState_elements_length s (rt i) (rt j) n1 n2 k1 k2 st1 st2
  by_cases hle : st1.size ≤ st2.size
  · simp only [if_pos hle] at hE ⊢
    have hle1 : cnt N rt (rt i) ≤ cnt N rt (rt j) := by
      rw [a6, b6] at hle
      exact_mod_cast hle
    exact I.link a1 a2 b1 b2 h hle1 (Or.inl ⟨a3, b3⟩) hk a5 b5 rfl hlen hE rfl
  · simp only [if_neg hle] at hE ⊢
    have hle1 : cnt N rt (rt j) ≤ cnt N rt (rt i) := by
      rw [a6, b6] at hle
      have : ¬ (cnt N rt (rt i) ≤ cnt N rt (rt j)) := by exact_mod_cast hle
      omega
    exact I.link b1 b2 a1 a2 (Ne.symm h) hle1 (Or.inr ⟨b3, a3⟩) hk a5 b5 rfl hlen hE rfl

/-! ## Reachable states satisfy the invariant -/

theorem int_range_cases (N : Nat) (e : Int) :
    (e < 0 ∨ (N : Int) ≤ e) ∨ ∃ i : Nat, e = (i : Int) ∧ i < N := by
  by_cases h : e < 0 ∨ (N : Int) ≤ e
  · exact Or.inl h
  · refine Or.inr ⟨e.toNat, ?_, ?_⟩ <;> omega

theorem unionSets_of_bad_index {N : Nat} {s : UnionFind T D} (hn : s.n = (N : Int))
    {e1 e2 : Int} (h : (e1 < 0 ∨ (N : Int) ≤ e1) ∨ (e2 < 0 ∨ (N : Int) ≤ e2)) :
    unionSets s e1 e2 = .ok (.Fail, s) := by
  apply unionSets_out_of_range
  rw [hn]
  omega

theorem Inv.unionSets_inv {N : Nat} {s : UnionFind T D} {rt dp : Nat → Nat}
    (I : Inv N s rt dp) (e1 e2 : Int) :
    ∃ (r : UnionResult) (s1 : UnionFind T D) (rt1 dp1 : Nat → Nat),
      unionSets s e1 e2 = .ok (r, s1) ∧ Inv N s1 rt1 dp1 := by
  rcases int_range_cases N e1 with h1 | ⟨i, rfl, hi⟩
  · exact ⟨.Fail, s, rt, dp, unionSets_of_bad_index I.n_eq (Or.inl h1), I⟩
  rcases int_range_cases N e2 with h2 | ⟨j, rfl, hj⟩
  · exact ⟨.Fail, s, rt, dp, unionSets_of_bad_index I.n_eq (Or.inr h2), I⟩
  by_cases h : rt i = rt j
  · exact ⟨.Fail, s, rt, dp, I.unionSets_same hi hj h, I⟩
  · obtain ⟨_, _, _, _, _, _, c, p, s1, _, _, _, _, _, _, _, _, _, _, _, _, _, hu, _, _, _, _, I1⟩ :=
      I.unionSets_success hi hj h
    exact ⟨.Success, s1, _, _, hu, I1⟩

theorem Inv.runOps_inv {N : Nat} (ops : List (Int × Int)) :
    ∀ {s : UnionFind T D} {rt dp : Nat → Nat}, Inv N s rt dp →
      ∃ (rs : List UnionResult) (s1 : UnionFind T D) (rt1 dp1 : Nat → Nat),
        runOps s ops = .ok (rs, s1) ∧ Inv N s1 rt1 dp1 := by
  induction ops with
  | nil => intro s rt dp I; exact ⟨[], s, rt, dp, rfl, I⟩
  | cons q rest ih =>
    intro s rt dp I
    obtain ⟨a, b⟩ := q
    obtain ⟨r, s1, rt1, dp1, hu, I1⟩ := I.unionSets_inv a b
    obtain ⟨rs, s2, rt2, dp2, hr, I2⟩ := ih I1
    exact ⟨r :: rs, s2, rt2, dp2, by simp only [runOps, hu, hr], I2⟩

theorem ReachableFrom.built_inv [Inhabited T] [Inhabited D] {N : Nat} {s : UnionFind T D}
    (hN : (N : Int) ≤ INT_MAX) (h : ReachableFrom .done N s) :
    ∃ rt dp : Nat → Nat, Inv N s rt dp := by
  obtain ⟨ops, rs, h⟩ := h
  obtain ⟨rs1, s1, rt1, dp1, hr, I1⟩ := Inv.runOps_inv ops (inv_construct (T := T) (D := D) hN)
  rw [h] at hr
  cases hr
  exact ⟨rt1, dp1, I1⟩

/-! ## What `find` returns, before and after a call -/

namespace Inv

variable {N : Nat} {s : UnionFind T D} {rt dp : Nat → Nat}

theorem find_val (I : Inv N s rt dp) {i : Nat} (hi : i < N) {nd : DisjointNode T}
    (h : s.elements[rt i]? = some nd) : find s (i : Int) = .ok nd.set := by
  simp [find, I.getUpTreeRoot_nat hi, loadNode_of_get h]

theorem find_eq_iff (I : Inv N s rt dp) {i j : Nat} (hi : i < N) (hj : j < N) :
    find s (i : Int) = find s (j : Int) ↔ rt i = rt j := by
  obtain ⟨n1, a1, a2⟩ := I.rt_root hi
  obtain ⟨n2, b1, b2⟩ := I.rt_root hj
  rw [I.find_val hi a1, I.find_val hj b1]
  constructor
  · intro h
    exact I.inj _ _ _ _ a1 b1 a2 b2 (Except.ok.inj h)
  · intro h
    rw [h, b1] at a1
    cases a1
    rfl

/-- A successful call in terms of the states alone. -/
theorem success_summary (I : Inv N s rt dp) {i j : Nat} (hi : i < N) (hj : j < N)
    (h : rt i ≠ rt j) :
    ∃ (s1 : UnionFind T D) (k1 k2 : Nat) (st1 st2 : Set D) (rt1 dp1 : Nat → Nat),
      unionSets s (i : Int) (j : Int) = .ok (.Success, s1) ∧ Inv N s1 rt1 dp1 ∧
      find s (i : Int) = .ok (k1 : Int) ∧ find s (j : Int) = .ok (k2 : Int) ∧ k1 ≠ k2 ∧
      s.sets[k1]? = some st1 ∧ s.sets[k2]? = some st2 ∧ 0 < st1.size ∧ 0 < st2.size ∧
      s1.sets = (s.sets.set k1 { st1 with size := st1.size + st2.size }).set k2
        { st2 with size := 0 } ∧
      (∀ x : Nat, x < N → rt x = rt i ∨ rt x = rt j → find s1 (x : Int) = .ok (k1 : Int)) ∧
      (∀ x : Nat, x < N → rt x ≠ rt i → rt x ≠ rt j → find s1 (x : Int) = find s (x : Int)) := by
  obtain ⟨n1, n2, k1, k2, st1, st2, c, p, s1, a1, a2, a3, b1, b2, b3, a5, a6, b5, b6, hk, f1, f2,
    hu, hs1, hc, hp, hE, I1⟩ := I.unionSets_success hi hj h
  have hcp : (c = rt i ∧ p = rt j) ∨ (c = rt j ∧ p = rt i) := by
    by_cases hle : st1.size ≤ st2.size
    · rw [if_pos hle] at hc hp
      exact Or.inl ⟨hc, hp⟩
    · rw [if_neg hle] at hc hp
      exact Or.inr ⟨hc, hp⟩
  have hpget : ∃ np, s.elements[p]? = some np := by
    rcases hcp with ⟨_, e⟩ | ⟨_, e⟩
    · exact ⟨n2, by rw [e]; exact b1⟩
    · exact ⟨n1, by rw [e]; exact a1⟩
  obtain ⟨np, hnp⟩ := hpget
  have hp1 : s1.elements[p]? = some (relink c p k1 p np) := by
    rw [hE, hnp]
    rfl
  have hpset : (relink c p k1 p np).set = (k1 : Int) := by
    simp [relink]
  refine ⟨s1, k1, k2, st1, st2, _, _, hu, I1, f1, f2, hk, a5, b5, ?_, ?_, ?_, ?_, ?_⟩
  · rw [a6]
    exact_mod_cast cnt_pos (I.rt_lt hi) (I.rt_rt hi)
  · rw [b6]
    exact_mod_cast cnt_pos (I.rt_lt hj) (I.rt_rt hj)
  · rw [hs1]
    rfl
  · intro x hx hor
    have hrx : linkRt rt c p x = p := by
      unfold linkRt
      by_cases hxc : rt x = c
      · rw [if_pos hxc]
      · rw [if_neg hxc]
        rcases hcp with ⟨e1, e2⟩ | ⟨e1, e2⟩ <;> rcases hor with o | o
        · exact absurd (o.trans e1.symm) hxc
        · exact o.trans e2.symm
        · exact o.trans e2.symm
        · exact absurd (o.trans e1.symm) hxc
    have hp2 : s1.elements[linkRt rt c p x]? = some (relink c p k1 p np) := by
      rw [hrx]
      exact hp1
    rw [I1.find_val hx hp2, hpset]
  · intro x hx o1 o2
    have hxc : rt x ≠ c := by
      rcases hcp with ⟨e1, _⟩ | ⟨e1, _⟩
      · rw [e1]; exact o1
      · rw [e1]; exact o2
    have hxp : rt x ≠ p := by
      rcases hcp with ⟨_, e2⟩ | ⟨_, e2⟩
      · rw [e2]; exact o2
      · rw [e2]; exact o1
    have hrx : linkRt rt c p x = rt x := by
      unfold linkRt
      rw [if_neg hxc]
    obtain ⟨nd, g1, _⟩ := I.rt_root hx
    have g2 : s1.elements[linkRt rt c p x]? = some nd := by
      rw [hrx, hE, g1]
      simp only [Option.map_some', relink_id nd hxc hxp]
    rw [I1.find_val hx g2, I.find_val hx g1]

end Inv

namespace Inv

variable {N : Nat} {s : UnionFind T D} {rt dp : Nat → Nat}

/-- A call that returned `Success` had two valid arguments in different up-trees. -/
theorem of_success (I : Inv N s rt dp) {e1 e2 : Int} {s1 : UnionFind T D}
    (hu : unionSets s e1 e2 = .ok (.Success, s1)) :
    ∃ i j : Nat, e1 = (i : Int) ∧ e2 = (j : Int) ∧ i < N ∧ j < N ∧ rt i ≠ rt j := by
  rcases int_range_cases N e1 with h1 | ⟨i, rfl, hi⟩
  · rw [unionSets_of_bad_index I.n_eq (Or.inl h1)] at hu
    simp at hu
  rcases int_range_cases N e2 with h2 | ⟨j, rfl, hj⟩
  · rw [unionSets_of_bad_index I.n_eq (Or.inr h2)] at hu
    simp at hu
  refine ⟨i, j, rfl, rfl, hi, hj, ?_⟩
  intro h
  rw [I.unionSets_same hi hj h] at hu
  simp at hu

/-- A call that returned `Fail` left the state as it was, and had an invalid argument or
two arguments in the same up-tree. -/
theorem of_fail (I : Inv N s rt dp) {e1 e2 : Int} {s1 : UnionFind T D}
    (hu : unionSets s e1 e2 = .ok (.Fail, s1)) :
    s1 = s ∧ ((e1 < 0 ∨ (N : Int) ≤ e1) ∨ (e2 < 0 ∨ (N : Int) ≤ e2) ∨
      ∃ i j : Nat, e1 = (i : Int) ∧ e2 = (j : Int) ∧ i < N ∧ j < N ∧ rt i = rt j) := by
  rcases int_range_cases N e1 with h1 | ⟨i, rfl, hi⟩
  · rw [unionSets_of_bad_index I.n_eq (Or.inl h1)] at hu
    simp only [Except.ok.injEq, Prod.mk.injEq, true_and] at hu
    exact ⟨hu.symm, Or.inl h1⟩
  rcases int_range_cases N e2 with h2 | ⟨j, rfl, hj⟩
  · rw [unionSets_of_bad_index I.n_eq (Or.inr h2)] at hu
    simp only [Except.ok.injEq, Prod.mk.injEq, true_and] at hu
    exact ⟨hu.symm, Or.inr (Or.inl h2)⟩
  by_cases h : rt i = rt j
  · rw [I.unionSets_same hi hj h] at hu
    simp only [Except.ok.injEq, Prod.mk.injEq, true_and] at hu
    exact ⟨hu.symm, Or.inr (Or.inr ⟨i, j, rfl, rfl, hi, hj, h⟩)⟩
  · obtain ⟨s2, _, _, _, _, _, _, hu2, _⟩ := I.success_summary hi hj h
    rw [hu2] at hu
    simp at hu

end Inv

/-! ## Counting live identifiers -/

theorem Inv.not_memoryError {N : Nat} {s : UnionFind T D} {rt dp : Nat → Nat}
    (I : Inv N s rt dp) {e1 e2 : Int} {s1 : UnionFind T D}
    (hu : unionSets s e1 e2 = .ok (.MemoryError, s1)) : False := by
  rcases int_range_cases N e1 with h1 | ⟨i, rfl, hi⟩
  · rw [unionSets_of_bad_index I.n_eq (Or.inl h1)] at hu
    simp at hu
  rcases int_range_cases N e2 with h2 | ⟨j, rfl, hj⟩
  · rw [unionSets_of_bad_index I.n_eq (Or.inr h2)] at hu
    simp at hu
  by_cases hij : rt i = rt j
  · rw [I.unionSets_same hi hj hij] at hu
    simp at hu
  · obtain ⟨_, _, _, _, _, _, _, hu2, _⟩ := I.success_summary hi hj hij
    rw [hu2] at hu
    simp at hu

theorem liveCount_construct [Inhabited T] [Inhabited D] (N : Nat) :
    liveCount (UnionFind.UnionFind N .done : UnionFind T D) = N := by
  unfold liveCount
  rw [List.countP_eq_length.2, construct_sets_length]
  intro st hst
  obtain ⟨k, hk⟩ := List.getElem?_of_mem hst
  have hkN : k < N := by
    have := (List.getElem?_eq_some.1 hk).1
    rwa [construct_sets_length] at this
  rw [construct_sets_get hkN] at hk
  cases hk
  exact decide_eq_true (show (0 : Int) < 1 by omega)

theorem Inv.liveCount_success {N : Nat} {s : UnionFind T D} {rt dp : Nat → Nat}
    (I : Inv N s rt dp) {i j : Nat} (hi : i < N) (hj : j < N) (h : rt i ≠ rt j)
    {s1 : UnionFind T D} (hu : unionSets s (i : Int) (j : Int) = .ok (.Success, s1)) :
    liveCount s1 + 1 = liveCount s := by
  obtain ⟨s2, k1, k2, st1, st2, _, _, hu2, _, _, _, hk, g1, g2, p1, p2, hS, _, _⟩ :=
    I.success_summary hi hj h
  rw [hu2] at hu
  simp only [Except.ok.injEq, Prod.mk.injEq, true_and] at hu
  subst hu
  have g3 : (s.sets.set k1 { st1 with size := st1.size + st2.size })[k2]? = some st2 := by
    rw [List.getElem?_set_ne hk]
    exact g2
  have c1 := countP_set (fun st : Set D => decide (0 < st.size)) _ k2
    { st2 with size := 0 } st2 g3
  have c2 := countP_set (fun st : Set D => decide (0 < st.size)) _ k1
    { st1 with size := st1.size + st2.size } st1 g1
  have q1 : decide (0 < st1.size) = true := decide_eq_true p1
  have q2 : decide (0 < st2.size) = true := decide_eq_true p2
  have q3 : decide (0 < st1.size + st2.size) = true := decide_eq_true (by omega)
  simp only [q1, q2, q3, if_true, lt_self_iff_false, decide_False, Bool.false_eq_true,
    if_false] at c1 c2
  unfold liveCount
  rw [hS]
  omega

/-- Along a run, each `Success` retires one identifier and each `Fail` none. -/
theorem Inv.liveCount_runOps {N : Nat} (ops : List (Int × Int)) :
    ∀ {s s1 : UnionFind T D} {rt dp : Nat → Nat} {rs : List UnionResult}, Inv N s rt dp →
      runOps s ops = .ok (rs, s1) → liveCount s1 + rs.count .Success = liveCount s := by
  induction ops with
  | nil =>
    intro s s1 rt dp rs _ h
    simp only [runOps, Except.ok.injEq, Prod.mk.injEq] at h
    obtain ⟨rfl, rfl⟩ := h
    simp
  | cons q rest ih =>
    intro s s1 rt dp rs I h
    obtain ⟨a, b⟩ := q
    obtain ⟨r, s2, rt2, dp2, hu, I2⟩ := I.unionSets_inv a b
    obtain ⟨rs2, s3, _, _, hr, _⟩ := Inv.runOps_inv rest I2
    simp only [runOps, hu, hr, Except.ok.injEq, Prod.mk.injEq] at h
    obtain ⟨rfl, rfl⟩ := h
    have h3 := ih I2 hr
    cases r with
    | Success =>
      obtain ⟨i, j, rfl, rfl, hi, hj, hij⟩ := I.of_success hu
      have := I.liveCount_success hi hj hij hu
      rw [List.count_cons_self]
      omega
    | Fail =>
      have := (I.of_fail hu).1
      subst this
      rw [List.count_cons_of_ne (by decide)]
      exact h3
    | MemoryError => exact (I.not_memoryError hu).elim

theorem Inv.partitionCount_eq {N : Nat} {s : UnionFind T D} {rt dp : Nat → Nat}
    (I : Inv N s rt dp) {i : Nat} (hi : i < N) {k : Int} (hk : find s (i : Int) = .ok k) :
    partitionCount s k = cnt N rt (rt i) := by
  unfold partitionCount cnt
  rw [I.len_elements]
  apply List.countP_congr
  intro x hx
  have hx1 := List.mem_range.1 hx
  rw [decide_eq_true_eq, ← I.find_eq_iff hx1 hi, hk]
  unfold findIs
  cases hf : find s (x : Int) with
  | error e => simp
  | ok k1 => simp

/-! ## The partition is the closure of the united pairs -/

/-- How one call changes the root function. -/
theorem Inv.step_rel {N : Nat} {s : UnionFind T D} {rt dp : Nat → Nat} (I : Inv N s rt dp)
    {e1 e2 : Int} {r : UnionResult} {s1 : UnionFind T D}
    (hu : unionSets s e1 e2 = .ok (r, s1)) :
    ∃ rt1 dp1 : Nat → Nat, Inv N s1 rt1 dp1 ∧
      (∀ x y : Nat, rt x = rt y → rt1 x = rt1 y) ∧
      (∀ i j : Nat, e1 = (i : Int) → e2 = (j : Int) → i < N → j < N → rt1 i = rt1 j) ∧
      (∀ x y : Nat, rt1 x = rt1 y → rt x = rt y ∨
        ∃ i j : Nat, e1 = (i : Int) ∧ e2 = (j : Int) ∧ i < N ∧ j < N ∧
          ((rt x = rt i ∧ rt y = rt j) ∨ (rt x = rt j ∧ rt y = rt i))) := by
  cases r with
  | MemoryError => exact (I.not_memoryError hu).elim
  | Fail =>
    obtain ⟨rfl, hcase⟩ := I.of_fail hu
    refine ⟨rt, dp, I, fun _ _ h => h, ?_, fun _ _ h => Or.inl h⟩
    intro i j h1 h2 hi hj
    rcases hcase with h | h | ⟨a, b, ea, eb, _, _, hab⟩
    · omega
    · omega
    · have e3 : a = i := by omega
      have e4 : b = j := by omega
      rw [← e3, ← e4]
      exact hab
  | Success =>
    obtain ⟨i, j, rfl, rfl, hi, hj, hij⟩ := I.of_success hu
    obtain ⟨_, _, _, _, st1, st2, c, p, s2, _, _, _, _, _, _, _, _, _, _, _, _, _, hu2, _, hc, hp,
      _, I1⟩ := I.unionSets_success hi hj hij
    rw [hu2] at hu
    simp only [Except.ok.injEq, Prod.mk.injEq, true_and] at hu
    subst hu
    have hcp : (c = rt i ∧ p = rt j) ∨ (c = rt j ∧ p = rt i) := by
      by_cases hle : st1.size ≤ st2.size
      · rw [if_pos hle] at hc hp
        exact Or.inl ⟨hc, hp⟩
      · rw [if_neg hle] at hc hp
        exact Or.inr ⟨hc, hp⟩
    refine ⟨_, _, I1, ?_, ?_, ?_⟩
    · intro x y h
      simp only [linkRt, h]
    · intro a b ea eb _ _
      have e3 : a = i := by omega
      have e4 : b = j := by omega
      subst e3 e4
      unfold linkRt
      rcases hcp with ⟨q1, q2⟩ | ⟨q1, q2⟩
      · rw [if_pos q1.symm, if_neg (by rw [q1]; exact Ne.symm hij), q2]
      · rw [if_neg (by rw [q1]; exact hij), if_pos q1.symm, q2]
    · intro x y h
      unfold linkRt at h
      by_cases hx : rt x = c <;> by_cases hy : rt y = c
      · exact Or.inl (hx.trans hy.symm)
      · rw [if_pos hx, if_neg hy] at h
        right
        refine ⟨i, j, rfl, rfl, hi, hj, ?_⟩
        rcases hcp with ⟨q1, q2⟩ | ⟨q1, q2⟩
        · exact Or.inl ⟨hx.trans q1, h.symm.trans q2⟩
        · exact Or.inr ⟨hx.trans q1, h.symm.trans q2⟩
      · rw [if_neg hx, if_pos hy] at h
        right
        refine ⟨i, j, rfl, rfl, hi, hj, ?_⟩
        rcases hcp with ⟨q1, q2⟩ | ⟨q1, q2⟩
        · exact Or.inr ⟨h.trans q2, hy.trans q1⟩
        · exact Or.inl ⟨h.trans q2, hy.trans q1⟩
      · rw [if_neg hx, if_neg hy] at h
        exact Or.inl h

theorem eqvGen_of_imp_eqvGen {α : Type} {R R1 : α → α → Prop}
    (h : ∀ u v, R u v → Relation.EqvGen R1 u v) {x y : α} (hxy : Relation.EqvGen R x y) :
    Relation.EqvGen R1 x y := by
  induction hxy with
  | rel u v huv => exact h u v huv
  | refl u => exact Relation.EqvGen.refl u
  | symm u v _ ih => exact Relation.EqvGen.symm u v ih
  | trans u v w _ _ ih1 ih2 => exact Relation.EqvGen.trans u v w ih1 ih2

/-- After a run, two elements have the same root exactly when the generating relation of
the run connects them. -/
theorem Inv.runOps_rel {N : Nat} (ops : List (Int × Int)) :
    ∀ {s s1 : UnionFind T D} {rt dp : Nat → Nat} {rs : List UnionResult}, Inv N s rt dp →
      runOps s ops = .ok (rs, s1) →
      ∃ rt1 dp1 : Nat → Nat, Inv N s1 rt1 dp1 ∧
        (∀ x y : Int, genRel N rt ops x y → rt1 x.toNat = rt1 y.toNat) ∧
        (∀ x y : Nat, x < N → y < N → rt1 x = rt1 y →
          Relation.EqvGen (genRel N rt ops) (x : Int) (y : Int)) := by
  induction ops with
  | nil =>
    intro s s1 rt dp rs I h
    simp only [runOps, Except.ok.injEq, Prod.mk.injEq] at h
    obtain ⟨_, rfl⟩ := h
    refine ⟨rt, dp, I, ?_, ?_⟩
    · intro x y hxy
      rcases hxy with ⟨a, b, rfl, rfl, _, _, hab⟩ | ⟨q, hq, _⟩
      · simpa using hab
      · simp at hq
    · intro x y hx hy hxy
      exact Relation.EqvGen.rel _ _ (Or.inl ⟨x, y, rfl, rfl, hx, hy, hxy⟩)
  | cons q rest ih =>
    intro s s1 rt dp rs I h
    obtain ⟨a, b⟩ := q
    obtain ⟨r, s2, _, _, hu, I2a⟩ := I.unionSets_inv a b
    obtain ⟨rs2, s3, _, _, hr, _⟩ := Inv.runOps_inv rest I2a
    simp only [runOps, hu, hr, Except.ok.injEq, Prod.mk.injEq] at h
    obtain ⟨_, rfl⟩ := h
    obtain ⟨rt2, dp2, I2, S1, S2, S3⟩ := I.step_rel hu
    obtain ⟨rt1, dp1, I1, sound1, complete1⟩ := ih I2 hr
    refine ⟨rt1, dp1, I1, ?_, ?_⟩
    · intro x y hxy
      apply sound1
      rcases hxy with ⟨u, v, rfl, rfl, hu1, hv1, huv⟩ | ⟨q, hq, ⟨q1, q2⟩, ⟨q3, q4⟩, rfl, rfl⟩
      · exact Or.inl ⟨u, v, rfl, rfl, hu1, hv1, S1 u v huv⟩
      · rcases List.mem_cons.1 hq with rfl | hq1
        · left
          refine ⟨a.toNat, b.toNat, by simp only []; omega, by simp only []; omega,
            by simp only [] at q1 q2; omega, by simp only [] at q3 q4; omega, ?_⟩
          apply S2
          · simp only [] at q1; omega
          · simp only [] at q3; omega
          · simp only [] at q1 q2; omega
          · simp only [] at q3 q4; omega
        · exact Or.inr ⟨q, hq1, ⟨q1, q2⟩, ⟨q3, q4⟩, rfl, rfl⟩
    · intro x y hx hy hxy
      refine eqvGen_of_imp_eqvGen ?_ (complete1 x y hx hy hxy)
      intro u v huv
      rcases huv with ⟨c1, c2, rfl, rfl, h1, h2, h12⟩ | ⟨q, hq, hq1, hq2, rfl, rfl⟩
      · rcases S3 c1 c2 h12 with h3 | ⟨i, j, rfl, rfl, hi, hj, h3⟩
        · exact Relation.EqvGen.rel _ _ (Or.inl ⟨c1, c2, rfl, rfl, h1, h2, h3⟩)
        · have hij : Relation.EqvGen (genRel N rt (((i : Int), (j : Int)) :: rest))
              (i : Int) (j : Int) :=
            Relation.EqvGen.rel _ _ (Or.inr ⟨((i : Int), (j : Int)), List.mem_cons_self _ _,
              ⟨by simp, by simpa using hi⟩, ⟨by simp, by simpa using hj⟩, rfl, rfl⟩)
          rcases h3 with ⟨h4, h5⟩ | ⟨h4, h5⟩
          · exact Relation.EqvGen.trans _ _ _
              (Relation.EqvGen.rel _ _ (Or.inl ⟨c1, i, rfl, rfl, h1, hi, h4⟩))
              (Relation.EqvGen.trans _ _ _ hij
                (Relation.EqvGen.rel _ _ (Or.inl ⟨j, c2, rfl, rfl, hj, h2, h5.symm⟩)))
          · exact Relation.EqvGen.trans _ _ _
              (Relation.EqvGen.rel _ _ (Or.inl ⟨c1, j, rfl, rfl, h1, hj, h4⟩))
              (Relation.EqvGen.trans _ _ _ (Relation.EqvGen.symm _ _ hij)
                (Relation.EqvGen.rel _ _ (Or.inl ⟨i, c2, rfl, rfl, hi, h2, h5.symm⟩)))
      · exact Relation.EqvGen.rel _ _
          (Or.inr ⟨q, List.mem_cons_of_mem _ hq, hq1, hq2, rfl, rfl⟩)

/-! ## Parent chains have no cycle -/

/-- A node reached after `d` links ascends to the same root with `d` links fewer. -/
theorem Ascends.of_ancestor {s : UnionFind T D} :
    ∀ (d x y r dx : Nat), Ascends s x r dx → ancestor s d x = some y →
      d ≤ dx ∧ Ascends s y r (dx - d) := by
  intro d
  induction d with
  | zero =>
    intro x y r dx h ha
    unfold ancestor at ha
    by_cases hx : x < s.elements.length
    · rw [if_pos hx] at ha
      cases ha
      exact ⟨Nat.zero_le _, h⟩
    · rw [if_neg hx] at ha
      cases ha
  | succ d ih =>
    intro x y r dx h ha
    unfold ancestor at ha
    cases h with
    | root h1 h2 =>
      rw [h1] at ha
      simp only [h2] at ha
      cases ha
    | @step _ p _ d1 nd h1 h2 h3 =>
      rw [h1] at ha
      simp only [h2] at ha
      obtain ⟨q1, q2⟩ := ih p y r d1 h3 ha
      refine ⟨by omega, ?_⟩
      have e : d1 + 1 - (d + 1) = d1 - d := by omega
      rw [e]
      exact q2

theorem ancestor_lt {s : UnionFind T D} :
    ∀ (d x y : Nat), ancestor s d x = some y → x < s.elements.length := by
  intro d x y ha
  cases d with
  | zero =>
    unfold ancestor at ha
    by_cases hx : x < s.elements.length
    · exact hx
    · rw [if_neg hx] at ha
      cases ha
  | succ d =>
    unfold ancestor at ha
    cases hx : s.elements[x]? with
    | none =>
      rw [hx] at ha
      cases ha
    | some nd => exact (List.getElem?_eq_some.1 hx).1

theorem Inv.no_cycle {N : Nat} {s : UnionFind T D} {rt dp : Nat → Nat} (I : Inv N s rt dp)
    (x d : Nat) (hd : 0 < d) : ancestor s d x ≠ some x := by
  intro ha
  have hx : x < N := by
    have := ancestor_lt d x x ha
    rwa [I.len_elements] at this
  have h := I.ascends x hx
  obtain ⟨q1, q2⟩ := Ascends.of_ancestor d x x _ _ h ha
  have := (h.det q2).2
  omega

/-- A call of `find` that returns an identifier was given an index inside `elements`. -/
theorem find_ok_in_range {s : UnionFind T D} {e v : Int} (h : find s e = .ok v) :
    0 ≤ e ∧ e < (s.elements.length : Int) := by
  unfold find at h
  cases hg : getUpTreeRoot s e with
  | error err =>
    rw [hg] at h
    cases h
  | ok r =>
    unfold getUpTreeRoot at hg
    by_cases h0 : 0 ≤ e
    · rw [if_pos h0] at hg
      obtain ⟨d, _, ha⟩ := ascends_of_aux_getUpTreeRoot _ _ _ hg
      have := ha.lt
      omega
    · rw [if_neg h0] at hg
      cases hg

/-! ## Nodes and records after a call -/

/-- Everything about the state `s1` left by a call that returned `Success`. -/
theorem Inv.success_full {N : Nat} {s : UnionFind T D} {rt dp : Nat → Nat}
    (I : Inv N s rt dp) {e1 e2 : Int} {s1 : UnionFind T D}
    (hu : unionSets s e1 e2 = .ok (.Success, s1)) :
    ∃ (i j : Nat) (n1 n2 : DisjointNode T) (k1 k2 : Nat) (st1 st2 : Set D) (c p : Nat),
      e1 = (i : Int) ∧ e2 = (j : Int) ∧ i < N ∧ j < N ∧ rt i ≠ rt j ∧
      s.elements[rt i]? = some n1 ∧ n1.parent = none ∧ n1.set = (k1 : Int) ∧
      s.elements[rt j]? = some n2 ∧ n2.parent = none ∧ n2.set = (k2 : Int) ∧
      s.sets[k1]? = some st1 ∧ st1.size = (cnt N rt (rt i) : Int) ∧
      s.sets[k2]? = some st2 ∧ st2.size = (cnt N rt (rt j) : Int) ∧ k1 ≠ k2 ∧
      find s (i : Int) = .ok (k1 : Int) ∧ find s (j : Int) = .ok (k2 : Int) ∧
      c = (if st1.size ≤ st2.size then rt i else rt j) ∧
      p = (if st1.size ≤ st2.size then rt j else rt i) ∧
      (∀ x : Nat, s1.elements[x]? = (s.elements[x]?).map (relink c p k1 x)) ∧
      s1.sets = (s.sets.set k1 { st1 with size := st1.size + st2.size }).set k2
        { st2 with size := 0 } ∧
      Inv N s1 (linkRt rt c p) (linkDp rt dp c) := by
  obtain ⟨i, j, rfl, rfl, hi, hj, hij⟩ := I.of_success hu
  obtain ⟨n1, n2, k1, k2, st1, st2, c, p, s2, a1, a2, a3, b1, b2, b3, a5, a6, b5, b6, hk, f1, f2,
    hu2, hs2, hc, hp, hE, I1⟩ := I.unionSets_success hi hj hij
  rw [hu2] at hu
  simp only [Except.ok.injEq, Prod.mk.injEq, true_and] at hu
  subst hu
  refine ⟨i, j, n1, n2, k1, k2, st1, st2, c, p, rfl, rfl, hi, hj, hij, a1, a2, a3, b1, b2, b3,
    a5, a6, b5, b6, hk, f1, f2, hc, hp, hE, ?_, I1⟩
  rw [hs2]
  rfl

theorem parentAt_relink {s s1 : UnionFind T D} {c p k1 : Nat}
    (hE : ∀ x : Nat, s1.elements[x]? = (s.elements[x]?).map (relink c p k1 x)) (x : Nat) :
    parentAt s1 x = if x = c then (s.elements[x]?).map (fun _ => some p) else parentAt s x := by
  unfold parentAt
  rw [hE]
  cases hx : s.elements[x]? with
  | none => by_cases h : x = c <;> simp [h]
  | some nd => by_cases h : x = c <;> simp [relink, h]

/-- A call keeps the parent of every node that has one. -/
theorem Inv.step_parent {N : Nat} {s : UnionFind T D} {rt dp : Nat → Nat} (I : Inv N s rt dp)
    {e1 e2 : Int} {r : UnionResult} {s1 : UnionFind T D}
    (hu : unionSets s e1 e2 = .ok (r, s1)) (x p : Nat)
    (hx : parentAt s x = some (some p)) : parentAt s1 x = some (some p) := by
  cases r with
  | MemoryError => exact (I.not_memoryError hu).elim
  | Fail =>
    obtain ⟨rfl, _⟩ := I.of_fail hu
    exact hx
  | Success =>
    obtain ⟨i, j, n1, n2, k1, k2, st1, st2, c, q, _, _, _, _, _, a1, a2, _, b1, b2, _, _, _, _,
      _, _, _, _, hc, _, hE, _, _⟩ := I.success_full hu
    have hcroot : ∃ nc, s.elements[c]? = some nc ∧ nc.parent = none := by
      by_cases hle : st1.size ≤ st2.size
      · rw [if_pos hle] at hc
        exact ⟨n1, by rw [hc]; exact a1, a2⟩
      · rw [if_neg hle] at hc
        exact ⟨n2, by rw [hc]; exact b1, b2⟩
    obtain ⟨nc, g1, g2⟩ := hcroot
    have hxc : x ≠ c := by
      intro e
      rw [e] at hx
      unfold parentAt at hx
      rw [g1] at hx
      simp [g2] at hx
    rw [parentAt_relink hE, if_neg hxc]
    exact hx

theorem Inv.runOps_parent {N : Nat} (ops : List (Int × Int)) :
    ∀ {s s1 : UnionFind T D} {rt dp : Nat → Nat} {rs : List UnionResult}, Inv N s rt dp →
      runOps s ops = .ok (rs, s1) → ∀ x p : Nat, parentAt s x = some (some p) →
      parentAt s1 x = some (some p) := by
  induction ops with
  | nil =>
    intro s s1 rt dp rs _ h x p hx
    simp only [runOps, Except.ok.injEq, Prod.mk.injEq] at h
    obtain ⟨_, rfl⟩ := h
    exact hx
  | cons q rest ih =>
    intro s s1 rt dp rs I h x p hx
    obtain ⟨a, b⟩ := q
    obtain ⟨r, s2, rt2, dp2, hu, I2⟩ := I.unionSets_inv a b
    obtain ⟨rs2, s3, _, _, hr, _⟩ := Inv.runOps_inv rest I2
    simp only [runOps, hu, hr, Except.ok.injEq, Prod.mk.injEq] at h
    obtain ⟨_, rfl⟩ := h
    exact ih I2 hr x p (I.step_parent hu x p hx)

/-! ## Retired identifiers and payloads -/

theorem loadSet_ok_iff {s : UnionFind T D} {k : Int} {st : Set D} :
    loadSet s k = .ok st ↔ 0 ≤ k ∧ s.sets[k.toNat]? = some st := by
  unfold loadSet
  by_cases h0 : 0 ≤ k
  · rw [if_pos h0]
    cases h : s.sets[k.toNat]? <;> simp [h0]
  · rw [if_neg h0]
    simp [h0]

/-- The record of an identifier that `find` returns has a positive size. -/
theorem Inv.find_size_pos {N : Nat} {s : UnionFind T D} {rt dp : Nat → Nat}
    (I : Inv N s rt dp) {e k : Int} (hf : find s e = .ok k) :
    ∃ st : Set D, loadSet s k = .ok st ∧ 0 < st.size := by
  obtain ⟨h0, h1⟩ := find_ok_in_range hf
  rw [I.len_elements] at h1
  obtain ⟨x, rfl, hx⟩ : ∃ x : Nat, e = (x : Int) ∧ x < N := ⟨e.toNat, by omega, by omega⟩
  obtain ⟨_, k1, st, _, _, _, _, q2, q3, hf1⟩ := I.find_nat hx
  rw [hf1] at hf
  have hk : (k1 : Int) = k := Except.ok.inj hf
  subst hk
  refine ⟨st, loadSet_of_get q2, ?_⟩
  rw [q3]
  exact_mod_cast cnt_pos (I.rt_lt hx) (I.rt_rt hx)

/-- A call leaves a record of size 0 as it is. -/
theorem Inv.step_retired {N : Nat} {s : UnionFind T D} {rt dp : Nat → Nat} (I : Inv N s rt dp)
    {e1 e2 : Int} {r : UnionResult} {s1 : UnionFind T D}
    (hu : unionSets s e1 e2 = .ok (r, s1)) {k : Int} {st : Set D}
    (hk : loadSet s k = .ok st) (h0 : st.size = 0) : loadSet s1 k = .ok st := by
  cases r with
  | MemoryError => exact (I.not_memoryError hu).elim
  | Fail =>
    obtain ⟨rfl, _⟩ := I.of_fail hu
    exact hk
  | Success =>
    obtain ⟨i, j, _, _, k1, k2, st1, st2, _, _, _, _, hi, hj, _, _, _, _, _, _, _, a5, a6, b5,
      b6, _, _, _, _, _, _, hS, _⟩ := I.success_full hu
    have p1 : 0 < st1.size := by
      rw [a6]
      exact_mod_cast cnt_pos (I.rt_lt hi) (I.rt_rt hi)
    have p2 : 0 < st2.size := by
      rw [b6]
      exact_mod_cast cnt_pos (I.rt_lt hj) (I.rt_rt hj)
    obtain ⟨g0, g1⟩ := loadSet_ok_iff.1 hk
    have d1 : k1 ≠ k.toNat := by
      intro e
      rw [← e, a5] at g1
      cases g1
      omega
    have d2 : k2 ≠ k.toNat := by
      intro e
      rw [← e, b5] at g1
      cases g1
      omega
    apply loadSet_ok_iff.2
    refine ⟨g0, ?_⟩
    rw [hS, List.getElem?_set_ne d2, List.getElem?_set_ne d1]
    exact g1

theorem Inv.runOps_retired {N : Nat} (ops : List (Int × Int)) :
    ∀ {s s1 : UnionFind T D} {rt dp : Nat → Nat} {rs : List UnionResult}, Inv N s rt dp →
      runOps s ops = .ok (rs, s1) → ∀ {k : Int} {st : Set D}, loadSet s k = .ok st →
      st.size = 0 → loadSet s1 k = .ok st := by
  induction ops with
  | nil =>
    intro s s1 rt dp rs _ h k st hk _
    simp only [runOps, Except.ok.injEq, Prod.mk.injEq] at h
    obtain ⟨_, rfl⟩ := h
    exact hk
  | cons q rest ih =>
    intro s s1 rt dp rs I h k st hk h0
    obtain ⟨a, b⟩ := q
    obtain ⟨r, s2, rt2, dp2, hu, I2⟩ := I.unionSets_inv a b
    obtain ⟨rs2, s3, _, _, hr, _⟩ := Inv.runOps_inv rest I2
    simp only [runOps, hu, hr, Except.ok.injEq, Prod.mk.injEq] at h
    obtain ⟨_, rfl⟩ := h
    exact ih I2 hr (I.step_retired hu hk h0) h0

/-- A call changes no `data` field and no `department` field. -/
theorem Inv.step_payload {N : Nat} {s : UnionFind T D} {rt dp : Nat → Nat} (I : Inv N s rt dp)
    {e1 e2 : Int} {r : UnionResult} {s1 : UnionFind T D}
    (hu : unionSets s e1 e2 = .ok (r, s1)) :
    (∀ (x : Nat) (nd : DisjointNode T), loadNode s x = .ok nd →
      ∃ nd1 : DisjointNode T, loadNode s1 x = .ok nd1 ∧ nd1.data = nd.data) ∧
    (∀ (k : Int) (st : Set D), loadSet s k = .ok st →
      ∃ st1 : Set D, loadSet s1 k = .ok st1 ∧ st1.department = st.department) := by
  cases r with
  | MemoryError => exact (I.not_memoryError hu).elim
  | Fail =>
    obtain ⟨rfl, _⟩ := I.of_fail hu
    exact ⟨fun x nd h => ⟨nd, h, rfl⟩, fun k st h => ⟨st, h, rfl⟩⟩
  | Success =>
    obtain ⟨i, j, _, _, k1, k2, st1, st2, c, p, _, _, _, _, _, _, _, _, _, _, _, a5, _, b5,
      _, hk12, _, _, _, _, hE, hS, _⟩ := I.success_full hu
    constructor
    · intro x nd h
      refine ⟨relink c p k1 x nd, ?_, rfl⟩
      apply loadNode_of_get
      rw [hE, loadNode_ok_iff.1 h]
      rfl
    · intro k st h
      obtain ⟨g0, g1⟩ := loadSet_ok_iff.1 h
      have l1 := (List.getElem?_eq_some.1 a5).1
      have l2 := (List.getElem?_eq_some.1 b5).1
      by_cases d2 : k2 = k.toNat
      · refine ⟨{ st2 with size := 0 }, ?_, ?_⟩
        · apply loadSet_ok_iff.2
          refine ⟨g0, ?_⟩
          rw [hS, ← d2]
          exact List.getElem?_set_self (by rw [List.length_set]; exact l2)
        · rw [← d2, b5] at g1
          cases g1
          rfl
      · by_cases d1 : k1 = k.toNat
        · refine ⟨{ st1 with size := st1.size + st2.size }, ?_, ?_⟩
          · apply loadSet_ok_iff.2
            refine ⟨g0, ?_⟩
            rw [hS, List.getElem?_set_ne d2, ← d1]
            exact List.getElem?_set_self l1
          · rw [← d1, a5] at g1
            cases g1
            rfl
        · refine ⟨st, ?_, rfl⟩
          apply loadSet_ok_iff.2
          refine ⟨g0, ?_⟩
          rw [hS, List.getElem?_set_ne d2, List.getElem?_set_ne d1]
          exact g1

/-! ## States with payloads stored by the caller -/

theorem withPayloads_elements_get (s : UnionFind T D) (fd : Nat → T) (fp : Nat → D) (x : Nat) :
    (withPayloads s fd fp).elements[x]? =
      (s.elements[x]?).map fun nd => { nd with data := fd x } := by
  simp only [withPayloads, List.getElem?_mapIdx]

theorem withPayloads_sets_get (s : UnionFind T D) (fd : Nat → T) (fp : Nat → D) (k : Nat) :
    (withPayloads s fd fp).sets[k]? =
      (s.sets[k]?).map fun st => { st with department := fp k } := by
  simp only [withPayloads, List.getElem?_mapIdx]

theorem withPayloads_node_of_get {s : UnionFind T D} {fd : Nat → T} {fp : Nat → D} {x : Nat}
    {nd1 : DisjointNode T} (h : (withPayloads s fd fp).elements[x]? = some nd1) :
    ∃ nd : DisjointNode T, s.elements[x]? = some nd ∧ nd1.set = nd.set ∧
      nd1.parent = nd.parent := by
  rw [withPayloads_elements_get] at h
  cases hx : s.elements[x]? with
  | none =>
    rw [hx] at h
    cases h
  | some nd =>
    rw [hx] at h
    simp only [Option.map_some', Option.some.injEq] at h
    subst h
    exact ⟨nd, rfl, rfl, rfl⟩

theorem Ascends.after_payloads {s : UnionFind T D} (fd : Nat → T) (fp : Nat → D) {i r d : Nat}
    (h : Ascends s i r d) : Ascends (withPayloads s fd fp) i r d := by
  induction h with
  | @root i nd h1 h2 =>
    have g : (UF.withPayloads s fd fp).elements[i]? = some { nd with data := fd i } := by
      rw [withPayloads_elements_get, h1]
      rfl
    exact Ascends.root g h2
  | @step i p r d nd h1 h2 _ ih =>
    have g : (UF.withPayloads s fd fp).elements[i]? = some { nd with data := fd i } := by
      rw [withPayloads_elements_get, h1]
      rfl
    exact Ascends.step g h2 ih

theorem withPayloads_totalSize (s : UnionFind T D) (fd : Nat → T) (fp : Nat → D) :
    totalSize (withPayloads s fd fp) = totalSize s := by
  unfold totalSize
  congr 1
  apply List.ext_getElem?
  intro k
  rw [List.getElem?_map, List.getElem?_map, withPayloads_sets_get]
  cases s.sets[k]? <;> rfl

/-- Storing payloads keeps the representation invariant. -/
theorem Inv.payloads_stored {N : Nat} {s : UnionFind T D} {rt dp : Nat → Nat}
    (I : Inv N s rt dp) (fd : Nat → T) (fp : Nat → D) :
    Inv N (withPayloads s fd fp) rt dp where
  bound := I.bound
  n_eq := I.n_eq
  len_elements := by
    simp only [UF.withPayloads, List.length_mapIdx]
    exact I.len_elements
  len_sets := by
    simp only [UF.withPayloads, List.length_mapIdx]
    exact I.len_sets
  ascends := fun i hi => (I.ascends i hi).after_payloads fd fp
  depth := I.depth
  root_set := by
    intro r nd1 h1 h2
    obtain ⟨nd, g1, g2, g3⟩ := withPayloads_node_of_get h1
    obtain ⟨k, st, q1, q2, q3⟩ := I.root_set r nd g1 (g3.symm.trans h2)
    refine ⟨k, { st with department := fp k }, g2.trans q1, ?_, q3⟩
    rw [withPayloads_sets_get, q2]
    rfl
  inj := by
    intro r1 r2 m1 m2 h1 h2 p1 p2 e
    obtain ⟨n1, a1, a2, a3⟩ := withPayloads_node_of_get h1
    obtain ⟨n2, b1, b2, b3⟩ := withPayloads_node_of_get h2
    exact I.inj r1 r2 n1 n2 a1 b1 (a3.symm.trans p1) (b3.symm.trans p2)
      (a2.symm.trans (e.trans b2))
  sum := by
    rw [withPayloads_totalSize]
    exact I.sum

/-! ## Half-built objects -/

namespace HalfBuilt

variable {N : Nat} {s : UnionFind T D}

theorem getUpTreeRoot_of_get (_H : HalfBuilt N s) {x : Nat} {nd : DisjointNode T}
    (h : s.elements[x]? = some nd) (hp : nd.parent = none) :
    getUpTreeRoot s (x : Int) = .ok x := by
  unfold getUpTreeRoot
  simp only [Int.natCast_nonneg, if_true, Int.toNat_natCast]
  exact aux_getUpTreeRoot_of_ascends (Ascends.root h hp) _ (Nat.zero_le _)

theorem find_of_get (H : HalfBuilt N s) {x : Nat} {nd : DisjointNode T}
    (h : s.elements[x]? = some nd) : find s (x : Int) = .ok ILLEGAL_VALUE := by
  obtain ⟨h1, h2⟩ := H.nodes x nd h
  simp only [find, H.getUpTreeRoot_of_get h h2, loadNode_of_get h, h1]

theorem find_of_none (_H : HalfBuilt N s) {x : Nat} (h : s.elements[x]? = none) :
    find s (x : Int) = .error .outOfBounds := by
  unfold find getUpTreeRoot
  simp only [Int.natCast_nonneg, if_true, Int.toNat_natCast]
  unfold aux_getUpTreeRoot
  simp only [loadNode, h]

/-- On a half-built object every call that returns a code returns `Fail` and leaves the
object as it was. -/
theorem only_fail (H : HalfBuilt N s) {e1 e2 : Int} {r : UnionResult} {s1 : UnionFind T D}
    (hu : unionSets s e1 e2 = .ok (r, s1)) : r = .Fail ∧ s1 = s := by
  rcases int_range_cases N e1 with h1 | ⟨i, rfl, hi⟩
  · rw [unionSets_of_bad_index H.n_eq (Or.inl h1)] at hu
    simp only [Except.ok.injEq, Prod.mk.injEq] at hu
    exact ⟨hu.1.symm, hu.2.symm⟩
  rcases int_range_cases N e2 with h2 | ⟨j, rfl, hj⟩
  · rw [unionSets_of_bad_index H.n_eq (Or.inr h2)] at hu
    simp only [Except.ok.injEq, Prod.mk.injEq] at hu
    exact ⟨hu.1.symm, hu.2.symm⟩
  have hg : ¬ ((i : Int) ≥ s.n ∨ (i : Int) < 0 ∨ (j : Int) ≥ s.n ∨ (j : Int) < 0) := by
    rw [H.n_eq]
    omega
  unfold unionSets at hu
  rw [if_neg hg] at hu
  cases hi1 : s.elements[i]? with
  | none =>
    rw [H.find_of_none hi1] at hu
    simp [bind, Except.bind] at hu
  | some n1 =>
    rw [H.find_of_get hi1] at hu
    cases hj1 : s.elements[j]? with
    | none =>
      rw [H.find_of_none hj1] at hu
      simp [bind, Except.bind] at hu
    | some n2 =>
      rw [H.find_of_get hj1] at hu
      simp only [bind, Except.bind, if_true, Except.ok.injEq, Prod.mk.injEq] at hu
      exact ⟨hu.1.symm, hu.2.symm⟩

/-- With `elements` allocated, every call on a half-built object returns `Fail`. -/
theorem unionSets_fail (H : HalfBuilt N s) (hl : s.elements.length = N) (e1 e2 : Int) :
    unionSets s e1 e2 = .ok (.Fail, s) := by
  rcases int_range_cases N e1 with h1 | ⟨i, rfl, hi⟩
  · exact unionSets_of_bad_index H.n_eq (Or.inl h1)
  rcases int_range_cases N e2 with h2 | ⟨j, rfl, hj⟩
  · exact unionSets_of_bad_index H.n_eq (Or.inr h2)
  have hg : ¬ ((i : Int) ≥ s.n ∨ (i : Int) < 0 ∨ (j : Int) ≥ s.n ∨ (j : Int) < 0) := by
    rw [H.n_eq]
    omega
  obtain ⟨n1, g1⟩ : ∃ n1, s.elements[i]? = some n1 :=
    ⟨s.elements[i], List.getElem?_eq_getElem (by omega)⟩
  obtain ⟨n2, g2⟩ : ∃ n2, s.elements[j]? = some n2 :=
    ⟨s.elements[j], List.getElem?_eq_getElem (by omega)⟩
  unfold unionSets
  rw [if_neg hg, H.find_of_get g1, H.find_of_get g2]
  simp only [bind, Except.bind, if_true]

/-- Two valid indices have the same `find` result on a half-built object. -/
theorem find_eq (H : HalfBuilt N s) {i j : Nat} (hi : i < N) (hj : j < N) :
    find s (i : Int) = find s (j : Int) := by
  rcases H.len with hl | hl
  · obtain ⟨n1, g1⟩ : ∃ n1, s.elements[i]? = some n1 :=
      ⟨s.elements[i], List.getElem?_eq_getElem (by omega)⟩
    obtain ⟨n2, g2⟩ : ∃ n2, s.elements[j]? = some n2 :=
      ⟨s.elements[j], List.getElem?_eq_getElem (by omega)⟩
    rw [H.find_of_get g1, H.find_of_get g2]
  · have g1 : s.elements[i]? = none := List.getElem?_eq_none (by omega)
    have g2 : s.elements[j]? = none := List.getElem?_eq_none (by omega)
    rw [H.find_of_none g1, H.find_of_none g2]

theorem runOps_same (H : HalfBuilt N s) (ops : List (Int × Int)) :
    ∀ {rs : List UnionResult} {s1 : UnionFind T D}, runOps s ops = .ok (rs, s1) → s1 = s := by
  induction ops with
  | nil =>
    intro rs s1 h
    simp only [runOps, Except.ok.injEq, Prod.mk.injEq] at h
    exact h.2.symm
  | cons q rest ih =>
    intro rs s1 h
    obtain ⟨a, b⟩ := q
    unfold runOps at h
    cases hu : unionSets s a b with
    | error e =>
      rw [hu] at h
      simp at h
    | ok v =>
      obtain ⟨r, s2⟩ := v
      obtain ⟨_, rfl⟩ := H.only_fail hu
      simp only [hu] at h
      cases hr : runOps s2 rest with
      | error e => simp [hr] at h
      | ok w =>
        obtain ⟨rs2, s3⟩ := w
        simp only [hr, Except.ok.injEq, Prod.mk.injEq] at h
        rw [← h.2]
        exact ih hr

theorem no_parent (H : HalfBuilt N s) (x p : Nat) : parentAt s x ≠ some (some p) := by
  intro h
  unfold parentAt at h
  cases hx : s.elements[x]? with
  | none =>
    rw [hx] at h
    cases h
  | some nd =>
    rw [hx] at h
    simp only [Option.map_some', Option.some.injEq] at h
    rw [(H.nodes x nd hx).2] at h
    cases h

theorem no_record (H : HalfBuilt N s) (k : Int) (st : Set D) : loadSet s k ≠ .ok st := by
  intro h
  obtain ⟨_, h1⟩ := loadSet_ok_iff.1 h
  rw [H.sets_nil] at h1
  simp at h1

theorem stored (H : HalfBuilt N s) (fd : Nat → T) (fp : Nat → D) :
    HalfBuilt N (withPayloads s fd fp) where
  n_eq := H.n_eq
  sets_nil := by
    simp only [withPayloads, H.sets_nil, List.mapIdx_nil]
  nodes := by
    intro x nd1 h
    obtain ⟨nd, g1, g2, g3⟩ := withPayloads_node_of_get h
    obtain ⟨q1, q2⟩ := H.nodes x nd g1
    exact ⟨g2.trans q1, g3.trans q2⟩
  len := by
    simp only [withPayloads, List.length_mapIdx]
    exact H.len

end HalfBuilt

section HalfBuiltConstruct

variable [Inhabited T] [Inhabited D]

theorem halfBuilt_noSets (N : Nat) :
    HalfBuilt N (UnionFind.UnionFind N .noSets : UnionFind T D) ∧
      (UnionFind.UnionFind N .noSets : UnionFind T D).elements.length = N := by
  have hl : (UnionFind.UnionFind N .noSets : UnionFind T D).elements.length = N := by
    simp only [UnionFind.UnionFind, List.length_map, List.length_range]
  refine ⟨⟨rfl, rfl, ?_, Or.inl hl⟩, hl⟩
  intro x nd h
  have hx : x < N := by
    have := (List.getElem?_eq_some.1 h).1
    rwa [hl] at this
  simp only [UnionFind.UnionFind, List.getElem?_map, List.getElem?_range hx, Option.map_some',
    Option.some.injEq] at h
  subst h
  exact ⟨rfl, rfl⟩

theorem halfBuilt_noElements (N : Nat) :
    HalfBuilt N (UnionFind.UnionFind N .noElements : UnionFind T D) where
  n_eq := rfl
  sets_nil := rfl
  nodes := by
    intro x nd h
    simp [UnionFind.UnionFind] at h
  len := Or.inr rfl

/-- A reachable state is reached from a fully built object or is a half-built object. -/
theorem Reachable.built_or_half {N : Nat} {s : UnionFind T D} (h : Reachable N s) :
    ReachableFrom .done N s ∨ HalfBuilt N s := by
  obtain ⟨a, ops, rs, hr⟩ := h
  cases a with
  | done => exact Or.inl ⟨ops, rs, hr⟩
  | noElements =>
    have H := halfBuilt_noElements (T := T) (D := D) N
    rw [H.runOps_same ops hr]
    exact Or.inr H
  | noSets =>
    have H := (halfBuilt_noSets (T := T) (D := D) N).1
    rw [H.runOps_same ops hr]
    exact Or.inr H

/-- What is reached from an object whose `sets` allocation failed is that object. -/
theorem ReachableFrom.noSets_half {N : Nat} {s : UnionFind T D}
    (h : ReachableFrom .noSets N s) : HalfBuilt N s ∧ s.elements.length = N := by
  obtain ⟨ops, rs, hr⟩ := h
  have H := halfBuilt_noSets (T := T) (D := D) N
  rw [H.1.runOps_same ops hr]
  exact H

end HalfBuiltConstruct

/-! ## Verified properties of the specification -/

section Claims

variable [Inhabited T] [Inhabited D]

/-- C1: in every state reachable from `UnionFind(N)` (`N` an `int`, so at most
`INT_MAX`), if `unionSets(i, j)` returns `Success` then in the resulting state `find(i)`
and `find(j)` return the same identifier. -/
theorem unionSets_success_same_find (N : Nat) (hN : (N : Int) ≤ INT_MAX) (s s1 : UnionFind T D)
    (i j : Int) (hs : Reachable N s) (hu : unionSets s i j = .ok (.Success, s1)) :
    ∃ k : Int, find s1 i = .ok k ∧ find s1 j = .ok k := by
  rcases hs.built_or_half with hs | H
  swap
  · exact absurd (H.only_fail hu).1 (by decide)
  obtain ⟨rt, dp, I⟩ := hs.built_inv hN
  obtain ⟨a, b, rfl, rfl, ha, hb, hab⟩ := I.of_success hu
  obtain ⟨s2, k1, _, _, _, _, _, hu2, _, _, _, _, _, _, _, _, _, hf, _⟩ :=
    I.success_summary ha hb hab
  rw [hu2] at hu
  simp only [Except.ok.injEq, Prod.mk.injEq, true_and] at hu
  subst hu
  exact ⟨k1, hf a ha (Or.inl rfl), hf b hb (Or.inr rfl)⟩

theorem unionSets_success_same_find_witness :
    ((3 : Nat) : Int) ≤ INT_MAX ∧ Reachable 3 fresh3 ∧
      unionSets fresh3 0 1 = .ok (.Success, merged3) ∧
      ∃ k : Int, find merged3 0 = .ok k ∧ find merged3 1 = .ok k :=
  ⟨by decide, ⟨.done, [], [], rfl⟩, rfl,
    unionSets_success_same_find 3 (by decide) fresh3 merged3 0 1 ⟨.done, [], [], rfl⟩ rfl⟩

/-- C3, for an object whose `elements` array was allocated: in every state reachable from
such a `UnionFind(N)` (`N` at most `INT_MAX`) and for all integers `ele1`, `ele2`,
`unionSets` returns a code, the code is `Fail` or `Success` (never `MemoryError`), and it
is `Fail` exactly when an argument is outside `[0, N)` or `find(ele1) == find(ele2)`. -/
theorem unionSets_fail_iff (N : Nat) (hN : (N : Int) ≤ INT_MAX) (a : Alloc)
    (ha : a ≠ .noElements) (s : UnionFind T D) (hs : ReachableFrom a N s)
    (ele1 ele2 : Int) :
    ∃ (r : UnionResult) (s1 : UnionFind T D), unionSets s ele1 ele2 = .ok (r, s1) ∧
      (r = .Fail ∨ r = .Success) ∧
      (r = .Fail ↔ (ele1 < 0 ∨ (N : Int) ≤ ele1 ∨ ele2 < 0 ∨ (N : Int) ≤ ele2 ∨
        find s ele1 = find s ele2)) := by
  cases a with
  | noElements => exact absurd rfl ha
  | noSets =>
    obtain ⟨H, hl⟩ := hs.noSets_half
    refine ⟨.Fail, s, H.unionSets_fail hl ele1 ele2, Or.inl rfl, ?_⟩
    simp only [true_iff]
    rcases int_range_cases N ele1 with h1 | ⟨i, rfl, hi⟩
    · omega
    rcases int_range_cases N ele2 with h2 | ⟨j, rfl, hj⟩
    · omega
    exact Or.inr (Or.inr (Or.inr (Or.inr (H.find_eq hi hj))))
  | done =>
    obtain ⟨rt, dp, I⟩ := hs.built_inv hN
    rcases int_range_cases N ele1 with h1 | ⟨i, rfl, hi⟩
    · refine ⟨.Fail, s, unionSets_of_bad_index I.n_eq (Or.inl h1), Or.inl rfl, ?_⟩
      simp only [true_iff]
      omega
    rcases int_range_cases N ele2 with h2 | ⟨j, rfl, hj⟩
    · refine ⟨.Fail, s, unionSets_of_bad_index I.n_eq (Or.inr h2), Or.inl rfl, ?_⟩
      simp only [true_iff]
      omega
    by_cases h : rt i = rt j
    · refine ⟨.Fail, s, I.unionSets_same hi hj h, Or.inl rfl, ?_⟩
      simp only [true_iff]
      exact Or.inr (Or.inr (Or.inr (Or.inr ((I.find_eq_iff hi hj).2 h))))
    · obtain ⟨s1, _, _, _, _, _, _, hu, _⟩ := I.success_summary hi hj h
      refine ⟨.Success, s1, hu, Or.inr rfl, ?_⟩
      simp only [reduceCtorEq, false_iff]
      intro hc
      rcases hc with hc | hc | hc | hc | hc
      · omega
      · omega
      · omega
      · omega
      · exact h ((I.find_eq_iff hi hj).1 hc)

theorem unionSets_fail_iff_witness :
    ((3 : Nat) : Int) ≤ INT_MAX ∧ Alloc.done ≠ Alloc.noElements ∧
      ReachableFrom .done 3 merged3 ∧
      (∃ (r : UnionResult) (s1 : UnionFind Unit Unit), unionSets merged3 0 1 = .ok (r, s1) ∧
        (r = .Fail ∨ r = .Success) ∧
        (r = .Fail ↔ ((0 : Int) < 0 ∨ ((3 : Nat) : Int) ≤ 0 ∨ (1 : Int) < 0 ∨
          ((3 : Nat) : Int) ≤ 1 ∨ find merged3 0 = find merged3 1))) ∧
      (Alloc.noSets ≠ Alloc.noElements ∧ ReachableFrom .noSets 2 halfBuilt2 ∧
        ∃ (r : UnionResult) (s1 : UnionFind Unit Unit),
          unionSets halfBuilt2 0 1 = .ok (r, s1) ∧ (r = .Fail ∨ r = .Success) ∧
          (r = .Fail ↔ ((0 : Int) < 0 ∨ ((2 : Nat) : Int) ≤ 0 ∨ (1 : Int) < 0 ∨
            ((2 : Nat) : Int) ≤ 1 ∨ find halfBuilt2 0 = find halfBuilt2 1))) :=
  ⟨by decide, by decide, ⟨[(0, 1)], [.Success], rfl⟩,
    unionSets_fail_iff 3 (by decide) .done (by decide) merged3 ⟨[(0, 1)], [.Success], rfl⟩
      0 1,
    by decide, ⟨[], [], rfl⟩,
    unionSets_fail_iff 2 (by decide) .noSets (by decide) halfBuilt2 ⟨[], [], rfl⟩ 0 1⟩

/-- Counterexample to C3 as stated: on `UnionFind(INT_MAX)` whose `elements` allocation
failed, `unionSets(0, 1)` passes the range test and then reads through the unassigned
`elements` pointer; it returns no code. -/
theorem unionSets_fail_iff_counterexample :
    ((2147483647 : Nat) : Int) ≤ INT_MAX ∧ Reachable 2147483647 unbuiltMax ∧
      unionSets unbuiltMax 0 1 = .error .outOfBounds ∧
      ¬ ∃ (r : UnionResult) (s1 : UnionFind Unit Unit),
        unionSets unbuiltMax 0 1 = .ok (r, s1) := by
  refine ⟨by decide, ⟨.noElements, [], [], rfl⟩, rfl, ?_⟩
  rintro ⟨r, s1, h⟩
  have e : unionSets unbuiltMax 0 1 = .error .outOfBounds := rfl
  rw [e] at h
  simp at h

/-- C4: in every reachable state (`N` at most `INT_MAX`), a `unionSets(i, j)` that
returns `Fail` leaves the
state exactly as it was; and repeating a successful `unionSets(i, j)` at once returns
`Fail` and changes nothing. -/
theorem unionSets_fail_unchanged (N : Nat) (hN : (N : Int) ≤ INT_MAX) (s : UnionFind T D)
    (hs : Reachable N s) (i j : Int) :
    (∀ s1 : UnionFind T D, unionSets s i j = .ok (.Fail, s1) → s1 = s) ∧
    (∀ s1 : UnionFind T D, unionSets s i j = .ok (.Success, s1) →
      unionSets s1 i j = .ok (.Fail, s1)) := by
  rcases hs.built_or_half with hs | H
  swap
  · constructor
    · intro s1 hu
      exact (H.only_fail hu).2
    · intro s1 hu
      exact absurd (H.only_fail hu).1 (by decide)
  obtain ⟨rt, dp, I⟩ := hs.built_inv hN
  constructor
  · intro s1 hu
    exact (I.of_fail hu).1
  · intro s1 hu
    obtain ⟨a, b, rfl, rfl, ha, hb, hab⟩ := I.of_success hu
    obtain ⟨s2, k1, _, _, _, rt1, dp1, hu2, I1, _, _, _, _, _, _, _, _, hf, _⟩ :=
      I.success_summary ha hb hab
    rw [hu2] at hu
    simp only [Except.ok.injEq, Prod.mk.injEq, true_and] at hu
    subst hu
    apply I1.unionSets_same ha hb
    rw [← I1.find_eq_iff ha hb, hf a ha (Or.inl rfl), hf b hb (Or.inr rfl)]

theorem unionSets_fail_unchanged_witness :
    ((3 : Nat) : Int) ≤ INT_MAX ∧ Reachable 3 fresh3 ∧
      unionSets fresh3 0 1 = .ok (.Success, merged3) ∧
      unionSets merged3 0 1 = .ok (.Fail, merged3) :=
  ⟨by decide, ⟨.done, [], [], rfl⟩, rfl,
    (unionSets_fail_unchanged 3 (by decide) fresh3 ⟨.done, [], [], rfl⟩ 0 1).2 merged3 rfl⟩

/-- C5: in every reachable state (`N` at most `INT_MAX`), after a successful
`unionSets(ele1, ele2)` every element
that was in the partition of `ele1` or of `ele2` before the call has as `find` the value
`find(ele1)` had before the call. -/
theorem unionSets_first_identifier_survives (N : Nat) (hN : (N : Int) ≤ INT_MAX)
    (s s1 : UnionFind T D) (hs : Reachable N s) (ele1 ele2 : Int)
    (hu : unionSets s ele1 ele2 = .ok (.Success, s1)) :
    ∃ k1 : Int, find s ele1 = .ok k1 ∧
      ∀ k : Int, 0 ≤ k → k < (N : Int) →
        (find s k = find s ele1 ∨ find s k = find s ele2) → find s1 k = .ok k1 := by
  rcases hs.built_or_half with hs | H
  swap
  · exact absurd (H.only_fail hu).1 (by decide)
  obtain ⟨rt, dp, I⟩ := hs.built_inv hN
  obtain ⟨a, b, rfl, rfl, ha, hb, hab⟩ := I.of_success hu
  obtain ⟨s2, k1, _, _, _, _, _, hu2, _, f1, _, _, _, _, _, _, _, hf, _⟩ :=
    I.success_summary ha hb hab
  rw [hu2] at hu
  simp only [Except.ok.injEq, Prod.mk.injEq, true_and] at hu
  subst hu
  refine ⟨k1, f1, ?_⟩
  intro k hk0 hkN hor
  obtain ⟨x, rfl, hx⟩ : ∃ x : Nat, k = (x : Int) ∧ x < N := ⟨k.toNat, by omega, by omega⟩
  apply hf x hx
  rcases hor with o | o
  · exact Or.inl ((I.find_eq_iff hx ha).1 o)
  · exact Or.inr ((I.find_eq_iff hx hb).1 o)

theorem unionSets_first_identifier_survives_witness :
    ((5 : Nat) : Int) ≤ INT_MAX ∧ Reachable 5 split5 ∧
      unionSets split5 3 0 = .ok (.Success, joined5rev) ∧
      ∃ k1 : Int, find split5 3 = .ok k1 ∧
        ∀ k : Int, 0 ≤ k → k < ((5 : Nat) : Int) →
          (find split5 k = find split5 3 ∨ find split5 k = find split5 0) →
          find joined5rev k = .ok k1 :=
  ⟨by decide, ⟨.done, [(0, 1), (0, 2), (3, 4)], [.Success, .Success, .Success], rfl⟩, rfl,
    unionSets_first_identifier_survives 5 (by decide) split5 joined5rev
      ⟨.done, [(0, 1), (0, 2), (3, 4)], [.Success, .Success, .Success], rfl⟩ 3 0 rfl⟩

/-- C6: in every reachable state (`N` at most `INT_MAX`), after a successful
`unionSets(ele1, ele2)`, with
`k1 = find(ele1)` and `k2 = find(ele2)` taken before the call: `sets[k1].size` is the sum
of the old `sets[k1].size` and `sets[k2].size`, `sets[k2].size` is 0, and every other
`SetRecord` is as before. -/
theorem unionSets_success_sizes (N : Nat) (hN : (N : Int) ≤ INT_MAX)
    (s s1 : UnionFind T D) (hs : Reachable N s) (ele1 ele2 : Int)
    (hu : unionSets s ele1 ele2 = .ok (.Success, s1)) :
    ∃ (k1 k2 : Int) (a b a1 b1 : Set D),
      find s ele1 = .ok k1 ∧ find s ele2 = .ok k2 ∧
      loadSet s k1 = .ok a ∧ loadSet s k2 = .ok b ∧
      loadSet s1 k1 = .ok a1 ∧ loadSet s1 k2 = .ok b1 ∧
      a1.size = a.size + b.size ∧ b1.size = 0 ∧
      ∀ k : Int, k ≠ k1 → k ≠ k2 → loadSet s1 k = loadSet s k := by
  rcases hs.built_or_half with hs | H
  swap
  · exact absurd (H.only_fail hu).1 (by decide)
  obtain ⟨rt, dp, I⟩ := hs.built_inv hN
  obtain ⟨i, j, rfl, rfl, hi, hj, hij⟩ := I.of_success hu
  obtain ⟨s2, k1, k2, st1, st2, _, _, hu2, _, f1, f2, hk, g1, g2, _, _, hS, _, _⟩ :=
    I.success_summary hi hj hij
  rw [hu2] at hu
  simp only [Except.ok.injEq, Prod.mk.injEq, true_and] at hu
  subst hu
  have l1 := (List.getElem?_eq_some.1 g1).1
  have l2 := (List.getElem?_eq_some.1 g2).1
  have e1 : s2.sets[k1]? = some { st1 with size := st1.size + st2.size } := by
    rw [hS, List.getElem?_set_ne (Ne.symm hk)]
    exact List.getElem?_set_self l1
  have e2 : s2.sets[k2]? = some { st2 with size := 0 } := by
    rw [hS]
    exact List.getElem?_set_self (by rw [List.length_set]; exact l2)
  refine ⟨k1, k2, st1, st2, _, _, f1, f2, loadSet_of_get g1, loadSet_of_get g2,
    loadSet_of_get e1, loadSet_of_get e2, rfl, rfl, ?_⟩
  intro k n1 n2
  unfold loadSet
  by_cases h0 : 0 ≤ k
  · have d1 : k1 ≠ k.toNat := by omega
    have d2 : k2 ≠ k.toNat := by omega
    rw [hS, List.getElem?_set_ne d2, List.getElem?_set_ne d1]
  · rw [if_neg h0, if_neg h0]

theorem unionSets_success_sizes_witness :
    ((5 : Nat) : Int) ≤ INT_MAX ∧ Reachable 5 split5 ∧
      unionSets split5 0 3 = .ok (.Success, joined5) ∧
      ∃ (k1 k2 : Int) (a b a1 b1 : Set Unit),
        find split5 0 = .ok k1 ∧ find split5 3 = .ok k2 ∧
        loadSet split5 k1 = .ok a ∧ loadSet split5 k2 = .ok b ∧
        loadSet joined5 k1 = .ok a1 ∧ loadSet joined5 k2 = .ok b1 ∧
        a1.size = a.size + b.size ∧ b1.size = 0 ∧
        ∀ k : Int, k ≠ k1 → k ≠ k2 → loadSet joined5 k = loadSet split5 k :=
  ⟨by decide, ⟨.done, [(0, 1), (0, 2), (3, 4)], [.Success, .Success, .Success], rfl⟩, rfl,
    unionSets_success_sizes 5 (by decide) split5 joined5
      ⟨.done, [(0, 1), (0, 2), (3, 4)], [.Success, .Success, .Success], rfl⟩ 0 3 rfl⟩

/-- C7, for an object whose two allocations succeeded: after such a `UnionFind(N)`, for
every `i` in `[0, N)`: `elements[i].parent` is null, `elements[i].set == i`,
`sets[i].size == 1` and `find(i) == i`. -/
theorem construct_singletons (N i : Nat) (hi : i < N) :
    ∃ (nd : DisjointNode T) (st : Set D),
      loadNode (UnionFind.UnionFind N .done : UnionFind T D) i = .ok nd ∧
      nd.parent = none ∧ nd.set = (i : Int) ∧
      loadSet (UnionFind.UnionFind N .done : UnionFind T D) (i : Int) = .ok st ∧ st.size = 1 ∧
      find (UnionFind.UnionFind N .done : UnionFind T D) (i : Int) = .ok (i : Int) := by
  have h1 := construct_elements_get (T := T) (D := D) hi
  have h2 := construct_sets_get (T := T) (D := D) hi
  refine ⟨_, _, loadNode_of_get h1, rfl, rfl, loadSet_of_get h2, rfl, ?_⟩
  have h3 : getUpTreeRoot (UnionFind.UnionFind N .done : UnionFind T D) (i : Int) = .ok i := by
    unfold getUpTreeRoot
    simp only [Int.natCast_nonneg, if_true, Int.toNat_natCast]
    apply aux_getUpTreeRoot_of_ascends (Ascends.root h1 rfl)
    rw [construct_elements_length]
    omega
  simp only [find, h3, loadNode_of_get h1]
  rfl

theorem construct_singletons_witness :
    2 < 3 ∧ ∃ (nd : DisjointNode Unit) (st : Set Unit),
      loadNode fresh3 2 = .ok nd ∧ nd.parent = none ∧ nd.set = ((2 : Nat) : Int) ∧
      loadSet fresh3 ((2 : Nat) : Int) = .ok st ∧ st.size = 1 ∧
      find fresh3 ((2 : Nat) : Int) = .ok ((2 : Nat) : Int) :=
  ⟨by decide, construct_singletons 3 2 (by decide)⟩

/-- Counterexample to C7 as stated: after `UnionFind(2)` whose `sets` allocation failed,
element 0 has `set == ILLEGAL_VALUE`, there is no record `sets[0]`, and `find(0)` is
`ILLEGAL_VALUE`, not 0. -/
theorem construct_singletons_counterexample :
    (0 : Nat) < 2 ∧
      loadNode (UnionFind.UnionFind 2 .noSets : UnionFind Unit Unit) 0 = .ok ⟨(), -1, none⟩ ∧
      loadSet (UnionFind.UnionFind 2 .noSets : UnionFind Unit Unit) ((0 : Nat) : Int) =
        .error .outOfBounds ∧
      find (UnionFind.UnionFind 2 .noSets : UnionFind Unit Unit) ((0 : Nat) : Int) =
        .ok (-1) ∧
      ¬ ∃ (nd : DisjointNode Unit) (st : Set Unit),
        loadNode (UnionFind.UnionFind 2 .noSets : UnionFind Unit Unit) 0 = .ok nd ∧
        nd.parent = none ∧ nd.set = ((0 : Nat) : Int) ∧
        loadSet (UnionFind.UnionFind 2 .noSets : UnionFind Unit Unit) ((0 : Nat) : Int) =
          .ok st ∧
        st.size = 1 ∧
        find (UnionFind.UnionFind 2 .noSets : UnionFind Unit Unit) ((0 : Nat) : Int) =
          .ok ((0 : Nat) : Int) := by
  refine ⟨by decide, rfl, rfl, rfl, ?_⟩
  rintro ⟨nd, st, _, _, _, h, _⟩
  have e : loadSet (UnionFind.UnionFind 2 .noSets : UnionFind Unit Unit) ((0 : Nat) : Int) =
      .error .outOfBounds := rfl
  rw [e] at h
  simp at h

/-- C8, for an object whose two allocations succeeded: in every state reachable from
such a `UnionFind(N)` (`N` at most `INT_MAX`) by `unionSets` calls, successful or failing,
the sizes of all `SetRecord`s sum to `N`. -/
theorem totalSize_eq_universe (N : Nat) (hN : (N : Int) ≤ INT_MAX) (s : UnionFind T D)
    (hs : ReachableFrom .done N s) : totalSize s = (N : Int) := by
  obtain ⟨rt, dp, I⟩ := hs.built_inv hN
  exact I.sum

theorem totalSize_eq_universe_witness :
    ((5 : Nat) : Int) ≤ INT_MAX ∧ ReachableFrom .done 5 joined5 ∧ totalSize joined5 = ((5 : Nat) : Int) :=
  ⟨by decide, ⟨[(0, 1), (0, 2), (3, 4), (0, 3), (4, 2), (9, 0)],
      [.Success, .Success, .Success, .Success, .Fail, .Fail], rfl⟩,
    totalSize_eq_universe 5 (by decide) joined5
      ⟨[(0, 1), (0, 2), (3, 4), (0, 3), (4, 2), (9, 0)],
        [.Success, .Success, .Success, .Success, .Fail, .Fail], rfl⟩⟩

/-- Counterexample to C8 as stated: `UnionFind(2)` whose `sets` allocation failed has no
`SetRecord` at all, so the sizes do not sum to 2. -/
theorem totalSize_eq_universe_counterexample :
    ((2 : Nat) : Int) ≤ INT_MAX ∧ Reachable 2 halfBuilt2 ∧ halfBuilt2.sets = [] ∧
      totalSize halfBuilt2 ≠ ((2 : Nat) : Int) :=
  ⟨by decide, ⟨.noSets, [], [], rfl⟩, rfl, by decide⟩

/-- C10, for an object whose two allocations succeeded: every sequence of `unionSets`
calls on such a fresh `UnionFind(N)` (`N` at most `INT_MAX`) runs to the end, and then the
number of identifiers `k` with `sets[k].size > 0` is `N` minus the number of calls that
returned `Success`. -/
theorem liveCount_eq_universe_sub_successes (N : Nat) (hN : (N : Int) ≤ INT_MAX)
    (ops : List (Int × Int)) :
    ∃ (rs : List UnionResult) (s : UnionFind T D),
      runOps (UnionFind.UnionFind N .done : UnionFind T D) ops = .ok (rs, s) ∧
      (liveCount s : Int) = (N : Int) - (rs.count .Success : Int) := by
  have I := inv_construct (T := T) (D := D) hN
  obtain ⟨rs, s, _, _, hr, _⟩ := Inv.runOps_inv ops I
  refine ⟨rs, s, hr, ?_⟩
  have := Inv.liveCount_runOps ops I hr
  rw [liveCount_construct] at this
  omega

theorem liveCount_eq_universe_sub_successes_witness :
    ((5 : Nat) : Int) ≤ INT_MAX ∧
      ∃ (rs : List UnionResult) (s : UnionFind Unit Unit),
        runOps (UnionFind.UnionFind 5 .done : UnionFind Unit Unit)
          [(0, 1), (1, 0), (0, 2), (7, 2), (3, 4)] = .ok (rs, s) ∧
        (liveCount s : Int) = ((5 : Nat) : Int) - (rs.count .Success : Int) :=
  ⟨by decide, liveCount_eq_universe_sub_successes 5 (by decide)
    [(0, 1), (1, 0), (0, 2), (7, 2), (3, 4)]⟩

/-- Counterexample to C10 as stated: on `UnionFind(2)` whose `sets` allocation failed,
`unionSets(0, 1)` returns `Fail`, no call has succeeded, and no identifier has a positive
size, where the claim gives 2. -/
theorem liveCount_eq_universe_sub_successes_counterexample :
    ((2 : Nat) : Int) ≤ INT_MAX ∧
      runOps (UnionFind.UnionFind 2 .noSets : UnionFind Unit Unit) [(0, 1)] =
        .ok ([.Fail], halfBuilt2) ∧
      liveCount halfBuilt2 = 0 ∧
      (liveCount halfBuilt2 : Int) ≠
        ((2 : Nat) : Int) - (([UnionResult.Fail].count .Success : Nat) : Int) :=
  ⟨by decide, rfl, rfl, by decide⟩

/-- C9, for an object whose two allocations succeeded: in every state reachable from
such a `UnionFind(N)` (`N` at most `INT_MAX`), every node `r` with a null parent has a
`set` field in `[0, N)` whose `SetRecord` has a positive size, equal to the number of
elements whose parent chain ends at `r`; and for every element `i`, `sets[find(i)].size`
is the number of elements with the same `find` as `i`. -/
theorem root_size_is_partition_size (N : Nat) (hN : (N : Int) ≤ INT_MAX) (s : UnionFind T D)
    (hs : ReachableFrom .done N s) :
    (∀ (r : Nat) (nd : DisjointNode T), loadNode s r = .ok nd → nd.parent = none →
      0 ≤ nd.set ∧ nd.set < (N : Int) ∧
      ∃ st : Set D, loadSet s nd.set = .ok st ∧ 0 < st.size ∧
        st.size = (chainCount s r : Int)) ∧
    (∀ i : Int, 0 ≤ i → i < (N : Int) →
      ∃ (k : Int) (st : Set D), find s i = .ok k ∧ loadSet s k = .ok st ∧
        st.size = (partitionCount s k : Int)) := by
  obtain ⟨rt, dp, I⟩ := hs.built_inv hN
  constructor
  · intro r nd h1 h2
    have g1 := loadNode_ok_iff.1 h1
    obtain ⟨k, st, q1, q2, q3⟩ := I.root_set r nd g1 h2
    have hk : k < N := by
      have := (List.getElem?_eq_some.1 q2).1
      rwa [I.len_sets] at this
    have hr := I.lt_of_get g1
    have hpos := cnt_pos hr (I.root_fix g1 h2).1
    rw [q1]
    refine ⟨by omega, by omega, st, loadSet_of_get q2, ?_, ?_⟩
    · rw [q3]
      exact_mod_cast hpos
    · rw [q3, I.chainCount_eq]
  · intro i h0 h1
    obtain ⟨x, rfl, hx⟩ : ∃ x : Nat, i = (x : Int) ∧ x < N := ⟨i.toNat, by omega, by omega⟩
    obtain ⟨nd, k, st, _, _, _, _, q2, q3, hf⟩ := I.find_nat hx
    refine ⟨k, st, hf, loadSet_of_get q2, ?_⟩
    rw [q3, I.partitionCount_eq hx hf]

theorem root_size_is_partition_size_witness :
    ((5 : Nat) : Int) ≤ INT_MAX ∧ ReachableFrom .done 5 split5 ∧
      (∀ (r : Nat) (nd : DisjointNode Unit), loadNode split5 r = .ok nd → nd.parent = none →
        0 ≤ nd.set ∧ nd.set < ((5 : Nat) : Int) ∧
        ∃ st : Set Unit, loadSet split5 nd.set = .ok st ∧ 0 < st.size ∧
          st.size = (chainCount split5 r : Int)) ∧
      (∀ i : Int, 0 ≤ i → i < ((5 : Nat) : Int) →
        ∃ (k : Int) (st : Set Unit), find split5 i = .ok k ∧ loadSet split5 k = .ok st ∧
          st.size = (partitionCount split5 k : Int)) :=
  ⟨by decide, ⟨[(0, 1), (0, 2), (3, 4)], [.Success, .Success, .Success], rfl⟩,
    root_size_is_partition_size 5 (by decide) split5
      ⟨[(0, 1), (0, 2), (3, 4)], [.Success, .Success, .Success], rfl⟩⟩

/-- Counterexample to C9 as stated: in `UnionFind(2)` whose `sets` allocation failed,
node 0 has a null parent and `set == ILLEGAL_VALUE`, which is not in `[0, 2)`. -/
theorem root_size_is_partition_size_counterexample :
    ((2 : Nat) : Int) ≤ INT_MAX ∧ Reachable 2 halfBuilt2 ∧
      loadNode halfBuilt2 0 = .ok ⟨(), -1, none⟩ ∧
      ¬ ∀ (r : Nat) (nd : DisjointNode Unit), loadNode halfBuilt2 r = .ok nd →
        nd.parent = none →
        0 ≤ nd.set ∧ nd.set < ((2 : Nat) : Int) ∧
        ∃ st : Set Unit, loadSet halfBuilt2 nd.set = .ok st ∧ 0 < st.size ∧
          st.size = (chainCount halfBuilt2 r : Int) := by
  refine ⟨by decide, ⟨.noSets, [], [], rfl⟩, rfl, ?_⟩
  intro h
  have h1 := (h 0 ⟨(), -1, none⟩ rfl rfl).1
  exact absurd h1 (by decide)

/-- C2, for an object whose two allocations succeeded: every sequence of
`unionSets(a_k, b_k)` calls on such a fresh `UnionFind(N)` (`N` at most `INT_MAX`) runs to
the end, and in the final state, for all `i`, `j` in `[0, N)`, `find(i)` returns an
identifier and `find(i) == find(j)` if and only if `i` and `j` are related by the
reflexive-symmetric-transitive closure of the pairs `(a_k, b_k)` whose two indices are
both in `[0, N)`. -/
theorem find_eq_iff_connected (N : Nat) (hN : (N : Int) ≤ INT_MAX) (ops : List (Int × Int)) :
    ∃ (rs : List UnionResult) (s : UnionFind T D),
      runOps (UnionFind.UnionFind N .done : UnionFind T D) ops = .ok (rs, s) ∧
      ∀ i j : Int, 0 ≤ i → i < (N : Int) → 0 ≤ j → j < (N : Int) →
        (∃ k : Int, find s i = .ok k) ∧
        (find s i = find s j ↔ Relation.EqvGen (unionPairs N ops) i j) := by
  have I := inv_construct (T := T) (D := D) hN
  obtain ⟨rs, s, _, _, hr, _⟩ := Inv.runOps_inv ops I
  obtain ⟨rt1, dp1, I1, sound, complete⟩ := Inv.runOps_rel ops I hr
  refine ⟨rs, s, hr, ?_⟩
  intro i j hi0 hiN hj0 hjN
  obtain ⟨x, rfl, hx⟩ : ∃ x : Nat, i = (x : Int) ∧ x < N := ⟨i.toNat, by omega, by omega⟩
  obtain ⟨y, rfl, hy⟩ : ∃ y : Nat, j = (y : Int) ∧ y < N := ⟨j.toNat, by omega, by omega⟩
  constructor
  · obtain ⟨_, k, _, _, _, _, _, _, _, hf⟩ := I1.find_nat hx
    exact ⟨k, hf⟩
  rw [I1.find_eq_iff hx hy]
  constructor
  · intro h
    refine eqvGen_of_imp_eqvGen ?_ (complete x y hx hy h)
    intro u v huv
    rcases huv with ⟨a, b, rfl, rfl, _, _, hab⟩ | hp
    · have : a = b := hab
      rw [this]
      exact Relation.EqvGen.refl _
    · exact Relation.EqvGen.rel _ _ hp
  · intro h
    have key : ∀ u v : Int, Relation.EqvGen (unionPairs N ops) u v →
        rt1 u.toNat = rt1 v.toNat := by
      intro u v huv
      induction huv with
      | rel a b hab => exact sound a b (Or.inr hab)
      | refl a => rfl
      | symm a b _ ih => exact ih.symm
      | trans a b c _ _ ih1 ih2 => exact ih1.trans ih2
    simpa using key _ _ h

theorem find_eq_iff_connected_witness :
    ((5 : Nat) : Int) ≤ INT_MAX ∧
      runOps (UnionFind.UnionFind 5 .done : UnionFind Unit Unit) [(0, 1), (2, 3), (1, 2)] =
        .ok ([.Success, .Success, .Success], scenarioA) ∧
      find scenarioA 0 = find scenarioA 3 ∧ find scenarioA 4 ≠ find scenarioA 0 ∧
      ∃ (rs : List UnionResult) (s : UnionFind Unit Unit),
        runOps (UnionFind.UnionFind 5 .done : UnionFind Unit Unit) [(0, 1), (2, 3), (1, 2)] =
          .ok (rs, s) ∧
        ∀ i j : Int, 0 ≤ i → i < ((5 : Nat) : Int) → 0 ≤ j → j < ((5 : Nat) : Int) →
          (∃ k : Int, find s i = .ok k) ∧
          (find s i = find s j ↔
            Relation.EqvGen (unionPairs 5 [(0, 1), (2, 3), (1, 2)]) i j) :=
  ⟨by decide, rfl, rfl,
    fun h => absurd (Except.ok.inj (h : Except.ok (4 : Int) = Except.ok (0 : Int))) (by decide),
    find_eq_iff_connected 5 (by decide) [(0, 1), (2, 3), (1, 2)]⟩

/-- Counterexample to C2 as stated: on `UnionFind(2)` whose `sets` allocation failed,
with no call made, `find(0) == find(1)` (both are `ILLEGAL_VALUE`) although 0 and 1 are
not related by the closure of the empty set of pairs. -/
theorem find_eq_iff_connected_counterexample :
    ((2 : Nat) : Int) ≤ INT_MAX ∧
      runOps (UnionFind.UnionFind 2 .noSets : UnionFind Unit Unit) [] = .ok ([], halfBuilt2) ∧
      find halfBuilt2 0 = .ok (-1) ∧ find halfBuilt2 1 = .ok (-1) ∧
      ¬ (find halfBuilt2 0 = find halfBuilt2 1 ↔
        Relation.EqvGen (unionPairs 2 []) 0 1) := by
  refine ⟨by decide, rfl, rfl, rfl, ?_⟩
  intro h
  have key : ∀ x y : Int, Relation.EqvGen (unionPairs 2 []) x y → x = y := by
    intro x y hxy
    induction hxy with
    | rel u v huv =>
      obtain ⟨q, hq, _⟩ := huv
      simp at hq
    | refl u => rfl
    | symm u v _ ih => exact ih.symm
    | trans u v w _ _ ih1 ih2 => exact ih1.trans ih2
  exact absurd (key 0 1 (h.1 rfl)) (by decide)

/-- C11: `find(element)` has no range test.  On `UnionFind(2)`, `find(5)` does not report
an invalid index: it forms `elements + 5` and reads that node, an access outside the
array, so the call has no defined result. -/
theorem find_out_of_range_reads_outside_elements :
    getUpTreeRoot fresh2 5 = aux_getUpTreeRoot fresh2 fresh2.elements.length 5 ∧
      loadNode fresh2 5 = .error .outOfBounds ∧
      find fresh2 5 = .error .outOfBounds ∧
      unionSets fresh2 0 5 = .ok (.Fail, fresh2) :=
  ⟨rfl, rfl, rfl, rfl⟩

/-- C12, for an object whose `elements` array was allocated: in every state reachable
from such a `UnionFind(N)` (`N` at most `INT_MAX`) and for all integers `ele1`, `ele2`,
`unionSets(ele1, ele2)` returns a code, so none of its accesses to `elements` or `sets` is
outside the array; whenever the call passes its validation, the `set` fields of the two
roots, which it uses as indices into `sets`, lie in `[0, N)`; when both arrays were
allocated every node with a null parent has its `set` field in `[0, N)`; and in any state
whatever, a call with an index outside `[0, n)` returns `Fail` from the range test, before
`find` is evaluated. -/
theorem unionSets_stays_in_bounds (N : Nat) (hN : (N : Int) ≤ INT_MAX) (a : Alloc)
    (ha : a ≠ .noElements) (s : UnionFind T D) (hs : ReachableFrom a N s) :
    (∀ ele1 ele2 : Int, ∃ (r : UnionResult) (s1 : UnionFind T D),
      unionSets s ele1 ele2 = .ok (r, s1)) ∧
    (∀ ele1 ele2 : Int, 0 ≤ ele1 → ele1 < (N : Int) → 0 ≤ ele2 → ele2 < (N : Int) →
      find s ele1 ≠ find s ele2 →
      ∃ (root1 root2 : Nat) (n1 n2 : DisjointNode T),
        getUpTreeRoot s ele1 = .ok root1 ∧ getUpTreeRoot s ele2 = .ok root2 ∧
        loadNode s root1 = .ok n1 ∧ loadNode s root2 = .ok n2 ∧
        0 ≤ n1.set ∧ n1.set < (N : Int) ∧ 0 ≤ n2.set ∧ n2.set < (N : Int)) ∧
    (a = .done → ∀ (r : Nat) (nd : DisjointNode T), loadNode s r = .ok nd →
      nd.parent = none → 0 ≤ nd.set ∧ nd.set < (N : Int)) ∧
    (∀ (t : UnionFind T D) (ele1 ele2 : Int),
      (ele1 < 0 ∨ t.n ≤ ele1 ∨ ele2 < 0 ∨ t.n ≤ ele2) →
      unionSets t ele1 ele2 = .ok (.Fail, t)) := by
  have hshort : ∀ (t : UnionFind T D) (ele1 ele2 : Int),
      (ele1 < 0 ∨ t.n ≤ ele1 ∨ ele2 < 0 ∨ t.n ≤ ele2) →
      unionSets t ele1 ele2 = .ok (.Fail, t) := by
    intro t ele1 ele2 h
    apply unionSets_out_of_range
    omega
  cases a with
  | noElements => exact absurd rfl ha
  | noSets =>
    obtain ⟨H, hl⟩ := hs.noSets_half
    refine ⟨fun ele1 ele2 => ⟨.Fail, s, H.unionSets_fail hl ele1 ele2⟩, ?_, ?_, hshort⟩
    · intro ele1 ele2 h1 h2 h3 h4 hne
      exfalso
      apply hne
      have e1 : ele1 = ((ele1.toNat : Nat) : Int) := by omega
      have e2 : ele2 = ((ele2.toNat : Nat) : Int) := by omega
      rw [e1, e2]
      exact H.find_eq (by omega) (by omega)
    · intro h
      cases h
  | done =>
    obtain ⟨rt, dp, I⟩ := hs.built_inv hN
    have hroot : ∀ (r : Nat) (nd : DisjointNode T), loadNode s r = .ok nd →
        nd.parent = none → 0 ≤ nd.set ∧ nd.set < (N : Int) := by
      intro r nd h1 h2
      obtain ⟨k, st, q1, q2, _⟩ := I.root_set r nd (loadNode_ok_iff.1 h1) h2
      have hk : k < N := by
        have := (List.getElem?_eq_some.1 q2).1
        rwa [I.len_sets] at this
      rw [q1]
      omega
    refine ⟨?_, ?_, fun _ => hroot, hshort⟩
    · intro ele1 ele2
      obtain ⟨r, s1, _, _, hu, _⟩ := I.unionSets_inv ele1 ele2
      exact ⟨r, s1, hu⟩
    · intro ele1 ele2 h1 h2 h3 h4 _
      obtain ⟨i, rfl, hi⟩ : ∃ i : Nat, ele1 = (i : Int) ∧ i < N :=
        ⟨ele1.toNat, by omega, by omega⟩
      obtain ⟨j, rfl, hj⟩ : ∃ j : Nat, ele2 = (j : Int) ∧ j < N :=
        ⟨ele2.toNat, by omega, by omega⟩
      obtain ⟨n1, a1, a2⟩ := I.rt_root hi
      obtain ⟨n2, b1, b2⟩ := I.rt_root hj
      obtain ⟨p1, p2⟩ := hroot _ _ (loadNode_of_get a1) a2
      obtain ⟨p3, p4⟩ := hroot _ _ (loadNode_of_get b1) b2
      exact ⟨rt i, rt j, n1, n2, I.getUpTreeRoot_nat hi, I.getUpTreeRoot_nat hj,
        loadNode_of_get a1, loadNode_of_get b1, p1, p2, p3, p4⟩

theorem unionSets_stays_in_bounds_witness :
    ((5 : Nat) : Int) ≤ INT_MAX ∧ Alloc.done ≠ Alloc.noElements ∧
      ReachableFrom .done 5 split5 ∧
      unionSets split5 (-1) 7 = .ok (.Fail, split5) ∧
      unionSets split5 3 0 = .ok (.Success, joined5rev) ∧
      (∀ ele1 ele2 : Int, ∃ (r : UnionResult) (s1 : UnionFind Unit Unit),
        unionSets split5 ele1 ele2 = .ok (r, s1)) ∧
      Alloc.noSets ≠ Alloc.noElements ∧ ReachableFrom .noSets 2 halfBuilt2 ∧
      (∀ ele1 ele2 : Int, ∃ (r : UnionResult) (s1 : UnionFind Unit Unit),
        unionSets halfBuilt2 ele1 ele2 = .ok (r, s1)) :=
  ⟨by decide, by decide,
    ⟨[(0, 1), (0, 2), (3, 4)], [.Success, .Success, .Success], rfl⟩, rfl, rfl,
    (unionSets_stays_in_bounds 5 (by decide) .done (by decide) split5
      ⟨[(0, 1), (0, 2), (3, 4)], [.Success, .Success, .Success], rfl⟩).1,
    by decide, ⟨[], [], rfl⟩,
    (unionSets_stays_in_bounds 2 (by decide) .noSets (by decide) halfBuilt2
      ⟨[], [], rfl⟩).1⟩

/-- Counterexample to C12 as stated: on `UnionFind(INT_MAX)` whose `elements` allocation
failed, `unionSets(0, 1)` passes the range test and `find(0)` reads a node through the
unassigned `elements` pointer, an access outside any array. -/
theorem unionSets_stays_in_bounds_counterexample :
    ((2147483647 : Nat) : Int) ≤ INT_MAX ∧ Reachable 2147483647 unbuiltMax ∧
      loadNode unbuiltMax 0 = .error .outOfBounds ∧
      find unbuiltMax 0 = .error .outOfBounds ∧
      unionSets unbuiltMax 0 1 = .error .outOfBounds :=
  ⟨by decide, ⟨.noElements, [], [], rfl⟩, rfl, rfl, rfl⟩

/-- C19: in every reachable state (`N` at most `INT_MAX`), after a successful
`unionSets(ele1, ele2)` every element `k` that was in neither the partition of `ele1` nor
that of `ele2` has the same `find(k)` as before the call. -/
theorem unionSets_keeps_other_partitions (N : Nat) (hN : (N : Int) ≤ INT_MAX)
    (s s1 : UnionFind T D) (hs : Reachable N s) (ele1 ele2 : Int)
    (hu : unionSets s ele1 ele2 = .ok (.Success, s1)) :
    ∀ k : Int, 0 ≤ k → k < (N : Int) → find s k ≠ find s ele1 → find s k ≠ find s ele2 →
      ∃ v : Int, find s k = .ok v ∧ find s1 k = .ok v := by
  rcases hs.built_or_half with hs | H
  swap
  · exact absurd (H.only_fail hu).1 (by decide)
  obtain ⟨rt, dp, I⟩ := hs.built_inv hN
  obtain ⟨a, b, rfl, rfl, ha, hb, hab⟩ := I.of_success hu
  obtain ⟨s2, _, _, _, _, _, _, hu2, _, _, _, _, _, _, _, _, _, _, hframe⟩ :=
    I.success_summary ha hb hab
  rw [hu2] at hu
  simp only [Except.ok.injEq, Prod.mk.injEq, true_and] at hu
  subst hu
  intro k hk0 hkN h1 h2
  obtain ⟨x, rfl, hx⟩ : ∃ x : Nat, k = (x : Int) ∧ x < N := ⟨k.toNat, by omega, by omega⟩
  obtain ⟨_, v, _, _, _, _, _, _, _, hf⟩ := I.find_nat hx
  refine ⟨v, hf, ?_⟩
  rw [← hf]
  apply hframe x hx
  · intro e
    exact h1 ((I.find_eq_iff hx ha).2 e)
  · intro e
    exact h2 ((I.find_eq_iff hx hb).2 e)

theorem unionSets_keeps_other_partitions_witness :
    ((5 : Nat) : Int) ≤ INT_MAX ∧ Reachable 5 scenarioB ∧
      unionSets scenarioB 1 2 = .ok (.Success, scenarioA) ∧
      ∀ k : Int, 0 ≤ k → k < ((5 : Nat) : Int) →
        find scenarioB k ≠ find scenarioB 1 → find scenarioB k ≠ find scenarioB 2 →
        ∃ v : Int, find scenarioB k = .ok v ∧ find scenarioA k = .ok v :=
  ⟨by decide, ⟨.done, [(0, 1), (2, 3)], [.Success, .Success], rfl⟩, rfl,
    unionSets_keeps_other_partitions 5 (by decide) scenarioB scenarioA
      ⟨.done, [(0, 1), (2, 3)], [.Success, .Success], rfl⟩ 1 2 rfl⟩

/-- C13, for an object whose two allocations succeeded: in every state reachable from
such a `UnionFind(N)` (`N` at most `INT_MAX`), every element `i` has a parent chain ending
at a root, and the number `d` of parent links from `i` to its root satisfies
`2 ^ d ≤ sets[find(i)].size`, that is `d ≤ floor(log2(sets[find(i)].size))`. -/
theorem depth_le_log_partition_size (N : Nat) (hN : (N : Int) ≤ INT_MAX) (s : UnionFind T D)
    (hs : ReachableFrom .done N s) (i : Nat) (hi : i < N) :
    (∃ r d : Nat, Ascends s i r d) ∧
    ∀ r d : Nat, Ascends s i r d →
      ∃ (k : Int) (st : Set D), find s (i : Int) = .ok k ∧ loadSet s k = .ok st ∧
        (2 : Int) ^ d ≤ st.size ∧ d ≤ Nat.log 2 st.size.toNat := by
  obtain ⟨rt, dp, I⟩ := hs.built_inv hN
  refine ⟨⟨rt i, dp i, I.ascends i hi⟩, ?_⟩
  intro r d h
  obtain ⟨_, e2⟩ := (I.ascends i hi).det h
  obtain ⟨_, k, st, _, _, _, _, q2, q3, hf⟩ := I.find_nat hi
  have hd := I.depth i hi
  rw [← e2] at hd
  refine ⟨k, st, hf, loadSet_of_get q2, ?_, ?_⟩
  · rw [q3]
    exact_mod_cast hd
  · apply Nat.le_log_of_pow_le (by decide)
    rw [q3, Int.toNat_natCast]
    exact hd

theorem depth_le_log_partition_size_witness :
    ((5 : Nat) : Int) ≤ INT_MAX ∧ ReachableFrom .done 5 scenarioA ∧ 0 < 5 ∧ Ascends scenarioA 0 3 2 ∧
      ∃ (k : Int) (st : Set Unit), find scenarioA ((0 : Nat) : Int) = .ok k ∧
        loadSet scenarioA k = .ok st ∧ (2 : Int) ^ 2 ≤ st.size ∧
        2 ≤ Nat.log 2 st.size.toNat :=
  ⟨by decide, ⟨[(0, 1), (2, 3), (1, 2)], [.Success, .Success, .Success], rfl⟩, by decide,
    Ascends.step (rfl : scenarioA.elements[0]? = some ⟨(), 0, some 1⟩) rfl
      (Ascends.step (rfl : scenarioA.elements[1]? = some ⟨(), 0, some 3⟩) rfl
        (Ascends.root (rfl : scenarioA.elements[3]? = some ⟨(), 0, none⟩) rfl)),
    (depth_le_log_partition_size 5 (by decide) scenarioA
      ⟨[(0, 1), (2, 3), (1, 2)], [.Success, .Success, .Success], rfl⟩ 0 (by decide)).2 3 2
      (Ascends.step (rfl : scenarioA.elements[0]? = some ⟨(), 0, some 1⟩) rfl
        (Ascends.step (rfl : scenarioA.elements[1]? = some ⟨(), 0, some 3⟩) rfl
          (Ascends.root (rfl : scenarioA.elements[3]? = some ⟨(), 0, none⟩) rfl)))⟩

/-- Counterexample to C13 as stated: in `UnionFind(2)` whose `sets` allocation failed,
element 0 is its own root at depth 0, `find(0)` is `ILLEGAL_VALUE` and there is no record
`sets[find(0)]` whose size could bound the depth. -/
theorem depth_le_log_partition_size_counterexample :
    ((2 : Nat) : Int) ≤ INT_MAX ∧ Reachable 2 halfBuilt2 ∧ (0 : Nat) < 2 ∧
      Ascends halfBuilt2 0 0 0 ∧ find halfBuilt2 ((0 : Nat) : Int) = .ok (-1) ∧
      loadSet halfBuilt2 (-1) = .error .outOfBounds ∧
      ¬ ∃ (k : Int) (st : Set Unit), find halfBuilt2 ((0 : Nat) : Int) = .ok k ∧
        loadSet halfBuilt2 k = .ok st ∧ (2 : Int) ^ 0 ≤ st.size ∧
        0 ≤ Nat.log 2 st.size.toNat := by
  refine ⟨by decide, ⟨.noSets, [], [], rfl⟩, by decide,
    Ascends.root (rfl : halfBuilt2.elements[0]? = some ⟨(), -1, none⟩) rfl, rfl, rfl, ?_⟩
  rintro ⟨k, st, h1, h2, _⟩
  have e : find halfBuilt2 ((0 : Nat) : Int) = .ok (-1) := rfl
  rw [e] at h1
  have hk : (-1 : Int) = k := Except.ok.inj h1
  subst hk
  have e2 : loadSet halfBuilt2 (-1) = .error .outOfBounds := rfl
  rw [e2] at h2
  simp at h2

/-- C14, for an object whose `elements` array was allocated: in every state reachable
from such a `UnionFind(N)` (`N` at most `INT_MAX`) no node is reached from itself by
following one or more parent links, and for every element in `[0, N)` the ascent
`aux_getUpTreeRoot` returns, with any budget of at least the number of nodes, a node whose
parent is null, so that `getUpTreeRoot` and `find` return. -/
theorem ascent_terminates_at_root (N : Nat) (hN : (N : Int) ≤ INT_MAX) (a : Alloc)
    (ha : a ≠ .noElements) (s : UnionFind T D) (hs : ReachableFrom a N s) :
    (∀ x d : Nat, 0 < d → ancestor s d x ≠ some x) ∧
    (∀ i : Nat, i < N →
      ∃ (r : Nat) (nd : DisjointNode T) (k : Int),
        (∀ fuel : Nat, s.elements.length ≤ fuel → aux_getUpTreeRoot s fuel i = .ok r) ∧
        getUpTreeRoot s (i : Int) = .ok r ∧ loadNode s r = .ok nd ∧ nd.parent = none ∧
        find s (i : Int) = .ok k) := by
  cases a with
  | noElements => exact absurd rfl ha
  | noSets =>
    obtain ⟨H, hl⟩ := hs.noSets_half
    constructor
    · intro x d hd hx
      obtain ⟨d1, rfl⟩ : ∃ d1, d = d1 + 1 := ⟨d - 1, by omega⟩
      unfold ancestor at hx
      cases hg : s.elements[x]? with
      | none =>
        rw [hg] at hx
        cases hx
      | some nd =>
        rw [hg] at hx
        simp only [(H.nodes x nd hg).2] at hx
        cases hx
    · intro i hi
      obtain ⟨nd, g⟩ : ∃ nd, s.elements[i]? = some nd :=
        ⟨s.elements[i], List.getElem?_eq_getElem (by omega)⟩
      have hp := (H.nodes i nd g).2
      exact ⟨i, nd, ILLEGAL_VALUE,
        fun fuel _ => aux_getUpTreeRoot_of_ascends (Ascends.root g hp) fuel (Nat.zero_le _),
        H.getUpTreeRoot_of_get g hp, loadNode_of_get g, hp, H.find_of_get g⟩
  | done =>
    obtain ⟨rt, dp, I⟩ := hs.built_inv hN
    refine ⟨I.no_cycle, ?_⟩
    intro i hi
    obtain ⟨nd, k, _, q1, q2, _, _, _, _, hf⟩ := I.find_nat hi
    refine ⟨rt i, nd, k, ?_, I.getUpTreeRoot_nat hi, loadNode_of_get q1, q2, hf⟩
    intro fuel hfuel
    apply aux_getUpTreeRoot_of_ascends (I.ascends i hi)
    have := I.dp_lt hi
    rw [I.len_elements] at hfuel
    omega

theorem ascent_terminates_at_root_witness :
    ((5 : Nat) : Int) ≤ INT_MAX ∧ Alloc.done ≠ Alloc.noElements ∧
      ReachableFrom .done 5 scenarioA ∧
      (∀ x d : Nat, 0 < d → ancestor scenarioA d x ≠ some x) ∧
      (∀ i : Nat, i < 5 →
        ∃ (r : Nat) (nd : DisjointNode Unit) (k : Int),
          (∀ fuel : Nat, scenarioA.elements.length ≤ fuel →
            aux_getUpTreeRoot scenarioA fuel i = .ok r) ∧
          getUpTreeRoot scenarioA (i : Int) = .ok r ∧ loadNode scenarioA r = .ok nd ∧
          nd.parent = none ∧ find scenarioA (i : Int) = .ok k) ∧
      Alloc.noSets ≠ Alloc.noElements ∧ ReachableFrom .noSets 2 halfBuilt2 ∧
      (∀ x d : Nat, 0 < d → ancestor halfBuilt2 d x ≠ some x) :=
  ⟨by decide, by decide, ⟨[(0, 1), (2, 3), (1, 2)], [.Success, .Success, .Success], rfl⟩,
    (ascent_terminates_at_root 5 (by decide) .done (by decide) scenarioA
      ⟨[(0, 1), (2, 3), (1, 2)], [.Success, .Success, .Success], rfl⟩).1,
    (ascent_terminates_at_root 5 (by decide) .done (by decide) scenarioA
      ⟨[(0, 1), (2, 3), (1, 2)], [.Success, .Success, .Success], rfl⟩).2,
    by decide, ⟨[], [], rfl⟩,
    (ascent_terminates_at_root 2 (by decide) .noSets (by decide) halfBuilt2
      ⟨[], [], rfl⟩).1⟩

/-- Counterexample to C14 as stated: on `UnionFind(INT_MAX)` whose `elements` allocation
failed, the ascent from element 0 reads through the unassigned `elements` pointer and
returns no node, and neither does `find(0)`. -/
theorem ascent_terminates_at_root_counterexample :
    ((2147483647 : Nat) : Int) ≤ INT_MAX ∧ Reachable 2147483647 unbuiltMax ∧
      (0 : Nat) < 2147483647 ∧
      getUpTreeRoot unbuiltMax ((0 : Nat) : Int) = .error .outOfBounds ∧
      (¬ ∃ r : Nat, getUpTreeRoot unbuiltMax ((0 : Nat) : Int) = .ok r) ∧
      ¬ ∃ k : Int, find unbuiltMax ((0 : Nat) : Int) = .ok k := by
  refine ⟨by decide, ⟨.noElements, [], [], rfl⟩, by decide, rfl, ?_, ?_⟩
  · rintro ⟨r, h⟩
    have e : getUpTreeRoot unbuiltMax ((0 : Nat) : Int) = .error .outOfBounds := rfl
    rw [e] at h
    simp at h
  · rintro ⟨k, h⟩
    have e : find unbuiltMax ((0 : Nat) : Int) = .error .outOfBounds := rfl
    rw [e] at h
    simp at h

/-- C15: in every reachable state (`N` at most `INT_MAX`), for a successful
`unionSets(ele1, ele2)` with `root1`, `root2` the up-tree roots of the arguments and
`size1`, `size2` the sizes of their partitions before the call: if `size1 <= size2`
(a tie included) then afterwards `root1.parent == root2` and `root2` is still a root,
otherwise `root2.parent == root1` and `root1` is still a root; no other node's parent
changes. -/
theorem unionSets_attaches_by_size (N : Nat) (hN : (N : Int) ≤ INT_MAX)
    (s s1 : UnionFind T D) (hs : Reachable N s) (ele1 ele2 : Int)
    (hu : unionSets s ele1 ele2 = .ok (.Success, s1)) :
    ∃ (root1 root2 : Nat) (k1 k2 : Int) (st1 st2 : Set D),
      getUpTreeRoot s ele1 = .ok root1 ∧ getUpTreeRoot s ele2 = .ok root2 ∧
      find s ele1 = .ok k1 ∧ find s ele2 = .ok k2 ∧
      loadSet s k1 = .ok st1 ∧ loadSet s k2 = .ok st2 ∧
      st1.size = (partitionCount s k1 : Int) ∧ st2.size = (partitionCount s k2 : Int) ∧
      (st1.size ≤ st2.size →
        parentAt s1 root1 = some (some root2) ∧ parentAt s1 root2 = some none ∧
        ∀ x : Nat, x ≠ root1 → parentAt s1 x = parentAt s x) ∧
      (¬ st1.size ≤ st2.size →
        parentAt s1 root2 = some (some root1) ∧ parentAt s1 root1 = some none ∧
        ∀ x : Nat, x ≠ root2 → parentAt s1 x = parentAt s x) := by
  rcases hs.built_or_half with hs | H
  swap
  · exact absurd (H.only_fail hu).1 (by decide)
  obtain ⟨rt, dp, I⟩ := hs.built_inv hN
  obtain ⟨i, j, n1, n2, k1, k2, st1, st2, c, p, rfl, rfl, hi, hj, hij, a1, a2, _, b1, b2, _,
    a5, a6, b5, b6, _, f1, f2, hc, hp, hE, _, _⟩ := I.success_full hu
  have pa1 : parentAt s (rt i) = some none := by
    unfold parentAt
    rw [a1, ← a2]
    rfl
  have pa2 : parentAt s (rt j) = some none := by
    unfold parentAt
    rw [b1, ← b2]
    rfl
  refine ⟨rt i, rt j, k1, k2, st1, st2, I.getUpTreeRoot_nat hi, I.getUpTreeRoot_nat hj, f1, f2,
    loadSet_of_get a5, loadSet_of_get b5, ?_, ?_, ?_, ?_⟩
  · rw [a6, I.partitionCount_eq hi f1]
  · rw [b6, I.partitionCount_eq hj f2]
  · intro hle
    rw [if_pos hle] at hc hp
    subst hc hp
    refine ⟨?_, ?_, ?_⟩
    · rw [parentAt_relink hE, if_pos rfl, a1]
      rfl
    · rw [parentAt_relink hE, if_neg (Ne.symm hij)]
      exact pa2
    · intro x hx
      rw [parentAt_relink hE, if_neg hx]
  · intro hle
    rw [if_neg hle] at hc hp
    subst hc hp
    refine ⟨?_, ?_, ?_⟩
    · rw [parentAt_relink hE, if_pos rfl, b1]
      rfl
    · rw [parentAt_relink hE, if_neg hij]
      exact pa1
    · intro x hx
      rw [parentAt_relink hE, if_neg hx]

theorem unionSets_attaches_by_size_witness :
    ((3 : Nat) : Int) ≤ INT_MAX ∧ Reachable 3 fresh3 ∧
      unionSets fresh3 0 1 = .ok (.Success, merged3) ∧
      parentAt merged3 0 = some (some 1) ∧ parentAt merged3 1 = some none ∧
      ∃ (root1 root2 : Nat) (k1 k2 : Int) (st1 st2 : Set Unit),
        getUpTreeRoot fresh3 0 = .ok root1 ∧ getUpTreeRoot fresh3 1 = .ok root2 ∧
        find fresh3 0 = .ok k1 ∧ find fresh3 1 = .ok k2 ∧
        loadSet fresh3 k1 = .ok st1 ∧ loadSet fresh3 k2 = .ok st2 ∧
        st1.size = (partitionCount fresh3 k1 : Int) ∧
        st2.size = (partitionCount fresh3 k2 : Int) ∧
        (st1.size ≤ st2.size →
          parentAt merged3 root1 = some (some root2) ∧ parentAt merged3 root2 = some none ∧
          ∀ x : Nat, x ≠ root1 → parentAt merged3 x = parentAt fresh3 x) ∧
        (¬ st1.size ≤ st2.size →
          parentAt merged3 root2 = some (some root1) ∧ parentAt merged3 root1 = some none ∧
          ∀ x : Nat, x ≠ root2 → parentAt merged3 x = parentAt fresh3 x) :=
  ⟨by decide, ⟨.done, [], [], rfl⟩, rfl, rfl, rfl,
    unionSets_attaches_by_size 3 (by decide) fresh3 merged3 ⟨.done, [], [], rfl⟩ 0 1 rfl⟩

/-- C17: in every reachable state (`N` at most `INT_MAX`), every node that has a parent
before a `unionSets` call has the same parent after it, and so has the same parent, and
is not a root, after any further sequence of calls. -/
theorem parent_links_are_permanent (N : Nat) (hN : (N : Int) ≤ INT_MAX) (s : UnionFind T D)
    (hs : Reachable N s) (x p : Nat) (hx : parentAt s x = some (some p)) :
    (∀ (ele1 ele2 : Int) (r : UnionResult) (s1 : UnionFind T D),
      unionSets s ele1 ele2 = .ok (r, s1) → parentAt s1 x = some (some p)) ∧
    (∀ (ops : List (Int × Int)) (rs : List UnionResult) (s2 : UnionFind T D),
      runOps s ops = .ok (rs, s2) →
      parentAt s2 x = some (some p) ∧ parentAt s2 x ≠ some none) := by
  rcases hs.built_or_half with hs | H
  swap
  · exact absurd hx (H.no_parent x p)
  obtain ⟨rt, dp, I⟩ := hs.built_inv hN
  constructor
  · intro ele1 ele2 r s1 hu
    exact I.step_parent hu x p hx
  · intro ops rs s2 hr
    have h := Inv.runOps_parent ops I hr x p hx
    refine ⟨h, ?_⟩
    rw [h]
    simp

theorem parent_links_are_permanent_witness :
    ((5 : Nat) : Int) ≤ INT_MAX ∧ Reachable 5 scenarioB ∧
      parentAt scenarioB 2 = some (some 3) ∧
      runOps scenarioB [(1, 2), (4, 0)] = .ok ([.Success, .Success], scenarioC) ∧
      parentAt scenarioC 2 = some (some 3) :=
  ⟨by decide, ⟨.done, [(0, 1), (2, 3)], [.Success, .Success], rfl⟩, rfl, rfl,
    ((parent_links_are_permanent 5 (by decide) scenarioB
      ⟨.done, [(0, 1), (2, 3)], [.Success, .Success], rfl⟩ 2 3 rfl).2
      [(1, 2), (4, 0)] [.Success, .Success] scenarioC rfl).1⟩

/-- C16: in every reachable state (`N` at most `INT_MAX`), whenever `unionSets(ele1, ele2)`
passes its validation (both indices in `[0, N)` and `find(ele1) != find(ele2)`), the sizes
`size1` and `size2` it reads are at least 1, so the guard
`size1 == EMPTY && size2 == EMPTY` is false; and every call that returns `Success` has
attached one of the two roots under the other. -/
theorem unionSets_empty_branch_never_taken (N : Nat) (hN : (N : Int) ≤ INT_MAX)
    (s : UnionFind T D) (hs : Reachable N s) (ele1 ele2 : Int) :
    (0 ≤ ele1 → ele1 < (N : Int) → 0 ≤ ele2 → ele2 < (N : Int) →
      find s ele1 ≠ find s ele2 →
      ∃ (root1 root2 : Nat) (n1 n2 : DisjointNode T) (st1 st2 : Set D),
        getUpTreeRoot s ele1 = .ok root1 ∧ getUpTreeRoot s ele2 = .ok root2 ∧
        loadNode s root1 = .ok n1 ∧ loadNode s root2 = .ok n2 ∧
        loadSet s n1.set = .ok st1 ∧ loadSet s n2.set = .ok st2 ∧
        1 ≤ st1.size ∧ 1 ≤ st2.size ∧ ¬ (st1.size = EMPTY ∧ st2.size = EMPTY)) ∧
    (∀ s1 : UnionFind T D, unionSets s ele1 ele2 = .ok (.Success, s1) →
      ∃ root1 root2 : Nat,
        getUpTreeRoot s ele1 = .ok root1 ∧ getUpTreeRoot s ele2 = .ok root2 ∧
        (parentAt s1 root1 = some (some root2) ∨ parentAt s1 root2 = some (some root1))) := by
  rcases hs.built_or_half with hs | H
  swap
  · constructor
    · intro h1 h2 h3 h4 hne
      exfalso
      apply hne
      have e1 : ele1 = ((ele1.toNat : Nat) : Int) := by omega
      have e2 : ele2 = ((ele2.toNat : Nat) : Int) := by omega
      rw [e1, e2]
      exact H.find_eq (by omega) (by omega)
    · intro s1 hu
      exact absurd (H.only_fail hu).1 (by decide)
  obtain ⟨rt, dp, I⟩ := hs.built_inv hN
  constructor
  · intro h1 h2 h3 h4 hne
    obtain ⟨i, rfl, hi⟩ : ∃ i : Nat, ele1 = (i : Int) ∧ i < N := ⟨ele1.toNat, by omega, by omega⟩
    obtain ⟨j, rfl, hj⟩ : ∃ j : Nat, ele2 = (j : Int) ∧ j < N := ⟨ele2.toNat, by omega, by omega⟩
    have hij : rt i ≠ rt j := fun e => hne ((I.find_eq_iff hi hj).2 e)
    obtain ⟨n1, n2, k1, k2, st1, st2, _, _, _, a1, _, a3, b1, _, b3, a5, a6, b5, b6, _⟩ :=
      I.unionSets_success hi hj hij
    have p1 : 0 < st1.size := by
      rw [a6]
      exact_mod_cast cnt_pos (I.rt_lt hi) (I.rt_rt hi)
    have p2 : 0 < st2.size := by
      rw [b6]
      exact_mod_cast cnt_pos (I.rt_lt hj) (I.rt_rt hj)
    refine ⟨rt i, rt j, n1, n2, st1, st2, I.getUpTreeRoot_nat hi, I.getUpTreeRoot_nat hj,
      loadNode_of_get a1, loadNode_of_get b1, ?_, ?_, by omega, by omega, ?_⟩
    · rw [a3]
      exact loadSet_of_get a5
    · rw [b3]
      exact loadSet_of_get b5
    · unfold EMPTY
      omega
  · intro s1 hu
    obtain ⟨i, j, n1, n2, k1, k2, st1, st2, c, p, rfl, rfl, hi, hj, hij, a1, _, _, b1, _, _,
      _, _, _, _, _, _, _, hc, hp, hE, _, _⟩ := I.success_full hu
    refine ⟨rt i, rt j, I.getUpTreeRoot_nat hi, I.getUpTreeRoot_nat hj, ?_⟩
    by_cases hle : st1.size ≤ st2.size
    · rw [if_pos hle] at hc hp
      subst hc hp
      left
      rw [parentAt_relink hE, if_pos rfl, a1]
      rfl
    · rw [if_neg hle] at hc hp
      subst hc hp
      right
      rw [parentAt_relink hE, if_pos rfl, b1]
      rfl

theorem unionSets_empty_branch_never_taken_witness :
    ((5 : Nat) : Int) ≤ INT_MAX ∧ Reachable 5 split5 ∧
      (∃ (root1 root2 : Nat) (n1 n2 : DisjointNode Unit) (st1 st2 : Set Unit),
        getUpTreeRoot split5 0 = .ok root1 ∧ getUpTreeRoot split5 3 = .ok root2 ∧
        loadNode split5 root1 = .ok n1 ∧ loadNode split5 root2 = .ok n2 ∧
        loadSet split5 n1.set = .ok st1 ∧ loadSet split5 n2.set = .ok st2 ∧
        1 ≤ st1.size ∧ 1 ≤ st2.size ∧ ¬ (st1.size = EMPTY ∧ st2.size = EMPTY)) ∧
      unionSets split5 0 3 = .ok (.Success, joined5) ∧
      ∃ root1 root2 : Nat,
        getUpTreeRoot split5 0 = .ok root1 ∧ getUpTreeRoot split5 3 = .ok root2 ∧
        (parentAt joined5 root1 = some (some root2) ∨
          parentAt joined5 root2 = some (some root1)) :=
  ⟨by decide, ⟨.done, [(0, 1), (0, 2), (3, 4)], [.Success, .Success, .Success], rfl⟩,
    (unionSets_empty_branch_never_taken 5 (by decide) split5
      ⟨.done, [(0, 1), (0, 2), (3, 4)], [.Success, .Success, .Success], rfl⟩ 0 3).1
      (by decide) (by decide) (by decide) (by decide)
      (fun h => absurd (Except.ok.inj (h : Except.ok (0 : Int) = Except.ok (3 : Int)))
        (by decide)),
    rfl,
    (unionSets_empty_branch_never_taken 5 (by decide) split5
      ⟨.done, [(0, 1), (0, 2), (3, 4)], [.Success, .Success, .Success], rfl⟩ 0 3).2 joined5 rfl⟩

/-- C18: in every reachable state (`N` at most `INT_MAX`), an identifier `k` whose record
has size 0 still has size 0 after any further sequence of `unionSets` calls, and in the
state so reached `find` returns `k` for no element. -/
theorem retired_identifier_stays_retired (N : Nat) (hN : (N : Int) ≤ INT_MAX)
    (s : UnionFind T D) (hs : Reachable N s) (k : Int) (st : Set D)
    (hk : loadSet s k = .ok st) (h0 : st.size = 0)
    (ops : List (Int × Int)) (rs : List UnionResult) (s2 : UnionFind T D)
    (hr : runOps s ops = .ok (rs, s2)) :
    (∃ st2 : Set D, loadSet s2 k = .ok st2 ∧ st2.size = 0) ∧
    ∀ element : Int, find s2 element ≠ .ok k := by
  rcases hs.built_or_half with hs | H
  swap
  · exact absurd hk (H.no_record k st)
  obtain ⟨rt, dp, I⟩ := hs.built_inv hN
  obtain ⟨_, s3, rt2, dp2, hr2, I2⟩ := Inv.runOps_inv ops I
  rw [hr] at hr2
  simp only [Except.ok.injEq, Prod.mk.injEq] at hr2
  obtain ⟨_, rfl⟩ := hr2
  have hk2 := Inv.runOps_retired ops I hr hk h0
  refine ⟨⟨st, hk2, h0⟩, ?_⟩
  intro element hf
  obtain ⟨st3, q1, q2⟩ := I2.find_size_pos hf
  rw [hk2] at q1
  have : st = st3 := Except.ok.inj q1
  subst this
  omega

theorem retired_identifier_stays_retired_witness :
    ((5 : Nat) : Int) ≤ INT_MAX ∧ Reachable 5 scenarioB ∧
      loadSet scenarioB 3 = .ok ⟨0, ()⟩ ∧
      runOps scenarioB [(1, 2), (4, 0)] = .ok ([.Success, .Success], scenarioC) ∧
      (∃ st2 : Set Unit, loadSet scenarioC 3 = .ok st2 ∧ st2.size = 0) ∧
      ∀ element : Int, find scenarioC element ≠ .ok 3 :=
  ⟨by decide, ⟨.done, [(0, 1), (2, 3)], [.Success, .Success], rfl⟩, rfl, rfl,
    retired_identifier_stays_retired 5 (by decide) scenarioB
      ⟨.done, [(0, 1), (2, 3)], [.Success, .Success], rfl⟩ 3 ⟨0, ()⟩ rfl rfl
      [(1, 2), (4, 0)] [.Success, .Success] scenarioC rfl⟩

/-- C20: in every reachable state (`N` at most `INT_MAX`), also after the caller has
stored payloads of its own in the `data` and `department` fields, a `unionSets` call,
successful or not, changes no element's `data` field and no `SetRecord`'s `department`
field; after a successful `unionSets(ele1, ele2)` the merged partition has the identifier
`find(ele1)` had before, with the department stored there before, and the department of
the old identifier of `ele2` is still stored in its slot, now of size 0. -/
theorem unionSets_keeps_payloads (N : Nat) (hN : (N : Int) ≤ INT_MAX) (s t t1 : UnionFind T D)
    (hs : Reachable N s)
    (ht : t = s ∨ ∃ (fd : Nat → T) (fp : Nat → D), t = withPayloads s fd fp)
    (ele1 ele2 : Int) (r : UnionResult) (hu : unionSets t ele1 ele2 = .ok (r, t1)) :
    (∀ (x : Nat) (nd : DisjointNode T), loadNode t x = .ok nd →
      ∃ nd1 : DisjointNode T, loadNode t1 x = .ok nd1 ∧ nd1.data = nd.data) ∧
    (∀ (k : Int) (st : Set D), loadSet t k = .ok st →
      ∃ st1 : Set D, loadSet t1 k = .ok st1 ∧ st1.department = st.department) ∧
    (r = .Success →
      ∃ (k1 k2 : Int) (a b a1 b1 : Set D),
        find t ele1 = .ok k1 ∧ find t ele2 = .ok k2 ∧
        loadSet t k1 = .ok a ∧ loadSet t k2 = .ok b ∧
        find t1 ele1 = .ok k1 ∧ loadSet t1 k1 = .ok a1 ∧ a1.department = a.department ∧
        loadSet t1 k2 = .ok b1 ∧ b1.department = b.department ∧ b1.size = 0) := by
  rcases hs.built_or_half with hs | H
  swap
  · have Ht : HalfBuilt N t := by
      rcases ht with rfl | ⟨fd, fp, rfl⟩
      · exact H
      · exact H.stored fd fp
    obtain ⟨rfl, rfl⟩ := Ht.only_fail hu
    exact ⟨fun x nd h => ⟨nd, h, rfl⟩, fun k st h => ⟨st, h, rfl⟩,
      fun h => absurd h (by decide)⟩
  obtain ⟨rt, dp, I0⟩ := hs.built_inv hN
  have I : Inv N t rt dp := by
    rcases ht with rfl | ⟨fd, fp, rfl⟩
    · exact I0
    · exact I0.payloads_stored fd fp
  obtain ⟨hdata, hdep⟩ := I.step_payload hu
  refine ⟨hdata, hdep, ?_⟩
  intro hr
  subst hr
  obtain ⟨i, j, rfl, rfl, hi, hj, hij⟩ := I.of_success hu
  obtain ⟨s2, k1, k2, st1, st2, _, _, hu2, _, f1, f2, hk, g1, g2, _, _, hS, hf, _⟩ :=
    I.success_summary hi hj hij
  rw [hu2] at hu
  simp only [Except.ok.injEq, Prod.mk.injEq, true_and] at hu
  subst hu
  have l1 := (List.getElem?_eq_some.1 g1).1
  have l2 := (List.getElem?_eq_some.1 g2).1
  have e1 : s2.sets[k1]? = some { st1 with size := st1.size + st2.size } := by
    rw [hS, List.getElem?_set_ne (Ne.symm hk)]
    exact List.getElem?_set_self l1
  have e2 : s2.sets[k2]? = some { st2 with size := 0 } := by
    rw [hS]
    exact List.getElem?_set_self (by rw [List.length_set]; exact l2)
  exact ⟨k1, k2, st1, st2, _, _, f1, f2, loadSet_of_get g1, loadSet_of_get g2,
    hf i hi (Or.inl rfl), loadSet_of_get e1, rfl, loadSet_of_get e2, rfl, rfl⟩

theorem unionSets_keeps_payloads_witness :
    ((2 : Nat) : Int) ≤ INT_MAX ∧ Reachable 2 labelled2 ∧
      loadSet tagged2 0 = .ok ⟨1, 20⟩ ∧ loadSet tagged2 1 = .ok ⟨1, 21⟩ ∧
      unionSets tagged2 1 0 = .ok (.Success, tagged2joined) ∧
      find tagged2joined 1 = .ok 1 ∧
      loadSet tagged2joined 1 = .ok ⟨2, 21⟩ ∧ loadSet tagged2joined 0 = .ok ⟨0, 20⟩ ∧
      (∀ (x : Nat) (nd : DisjointNode Nat), loadNode tagged2 x = .ok nd →
        ∃ nd1 : DisjointNode Nat, loadNode tagged2joined x = .ok nd1 ∧ nd1.data = nd.data) ∧
      (∀ (k : Int) (st : Set Nat), loadSet tagged2 k = .ok st →
        ∃ st1 : Set Nat, loadSet tagged2joined k = .ok st1 ∧
          st1.department = st.department) :=
  ⟨by decide, ⟨.done, [], [], rfl⟩, rfl, rfl, rfl, rfl, rfl, rfl,
    (unionSets_keeps_payloads 2 (by decide) labelled2 tagged2 tagged2joined ⟨.done, [], [], rfl⟩
      (Or.inr ⟨fun i => 10 + i, fun k => 20 + k, rfl⟩) 1 0 .Success rfl).1,
    (unionSets_keeps_payloads 2 (by decide) labelled2 tagged2 tagged2joined ⟨.done, [], [], rfl⟩
      (Or.inr ⟨fun i => 10 + i, fun k => 20 + k, rfl⟩) 1 0 .Success rfl).2.1⟩

end Claims

end UF
